import Mathlib

/-!
Verification of the Jinja statement lexer/parser of `fserve/jinja_parse.py`.

The Python source is shallowly embedded: the mutable `JinjaStatementLexer`
object becomes an explicit `LexerState` record, every method becomes a pure
function threading that record, and every `while True:` loop becomes a
fuel-indexed recursive function returning `Res.fuelOut` when the fuel runs
out (so a genuinely non-terminating Python loop is the statement
`∀ fuel, … = .fuelOut`).  Python exceptions (`InvalidSyntaxError`,
`UnexpectedTokenError`, and the runtime `TypeError` / `NameError` /
`ValueError` the source can raise) become the `PyErr` error type.
End-of-input, which the source represents by the sentinel `-1`, is `none` in
an `Option Char`.
-/

set_option maxRecDepth 10000
set_option maxHeartbeats 2000000

/-- The `TokenType` enum of the source.  `LINE_STATEMENT_PFX` and
`LINE_COMMENT_PFX` stand for the source names `LINE_STATEMENT_PREFIX` and
`LINE_COMMENT_PREFIX`. -/
inductive TokenType where
  | STATEMENT_START
  | STATEMENT_END
  | INLINE_START
  | INLINE_END
  | COMMENT_START
  | COMMENT_END
  | LINE_STATEMENT_PFX
  | LINE_COMMENT_PFX
  | COMMENT_DATA
  | TEMPLATE_DATA
  | WS
  | NAME_OR_KEYWORD
  | STR_LIT
  | NUM_LIT
  | L_BRACKET
  | R_BRACKET
  | L_PAREN
  | R_PAREN
  | L_BRACE
  | R_BRACE
  | PIPE
  | EQ
  | COMMA
  | DOT
  | MATH_OP_OR_STAR_ARGS
  | COMPARE_OP
  | COLON
  | EOF
  deriving DecidableEq, Repr

/-- A token's `value` attribute.  In Python it is a `str` (the default, equal
to the raw text, or the decoded string of a string literal), an `int`, or a
`float`.  Floating-point values are represented symbolically by the raw text
handed to Python's `float` constructor: no claim depends on IEEE arithmetic,
only on which strings reach `float` without a `ValueError`. -/
inductive Value where
  | str (s : String)
  | int (n : Int)
  | float (raw : String)
  deriving DecidableEq, Repr

/-- The `Token` record: kind, exact raw text, absolute offset, decoded value.
The constructor `Token(tok_type, text, offset, value=None)` defaults `value`
to `text`; `mkTok` below realises that default. -/
structure Token where
  tok_type : TokenType
  text : String
  offset : Nat
  value : Value
  deriving DecidableEq, Repr

/-- `Token(tok_type, text, offset)` with the defaulted `value = text`. -/
def mkTok (t : TokenType) (text : String) (offset : Nat) : Token :=
  { tok_type := t, text := text, offset := offset, value := .str text }

/-- The exceptions the source can raise while lexing/parsing: its own
`InvalidSyntaxError` and `UnexpectedTokenError`, plus the Python runtime
errors reachable from this code (`ValueError` from `is_digit`/`int`/`float`,
`NameError` from an unresolved name, `TypeError` from `str | str`). -/
inductive PyErr where
  | invalidSyntaxError (msg : String) (pos : Nat)
  | unexpectedTokenError (tok : Token) (expected : List TokenType)
  | valueError (msg : String)
  | nameError (msg : String)
  | typeError (msg : String)
  | indexError (msg : String)
  | attributeError (msg : String)
  deriving DecidableEq, Repr

/-- All mutable fields of a `JinjaStatementLexer` object.  Delimiter strings
are `Option (List Char)` (`None` in Python is `none`; the source also treats
an empty string as falsy, which the truthiness matches below reproduce).
`ch_buf` may buffer the end-of-input sentinel (`none`), exactly as the Python
list buffers `-1`.  `line_statement_pfx`/`line_comment_pfx` stand for the
source fields `line_statement_prefix`/`line_comment_prefix`. -/
structure LexerState where
  template_text : List Char
  block_start : Option (List Char)
  block_end : Option (List Char)
  inline_start : Option (List Char)
  inline_end : Option (List Char)
  comment_start : Option (List Char)
  comment_end : Option (List Char)
  line_statement_pfx : Option (List Char)
  line_comment_pfx : Option (List Char)
  ignore_tokens : List TokenType
  buf_tok : Option Token
  buf_state : Option Nat
  template_pos : Nat
  ch_buf : List (Option Char)
  la_buf : List Token
  state : Nat
  buf : Option (List Char)
  deriving DecidableEq, Repr

/-- Result of running an embedded method: a value together with the
post-state, a raised exception, or fuel exhaustion (the Python loop would
still be running). -/
inductive Res (α : Type) where
  | ok (a : α) (st : LexerState)
  | err (e : PyErr)
  | fuelOut
  deriving DecidableEq, Repr

/-- `is_digit(ch, radix=10)`.  The source returns `False` for the `-1`
sentinel before looking at the radix, and raises
`ValueError('Bad radix:', radix)` for any radix other than 10, 16, 8. -/
def is_digit (ch : Option Char) (radix : Nat) : Except PyErr Bool :=
  match ch with
  | none => .ok false
  | some c =>
    match radix with
    | 10 => .ok (decide ('0' ≤ c ∧ c ≤ '9'))
    | 16 => .ok (decide ('0' ≤ c ∧ c ≤ '9' ∨ 'a' ≤ c ∧ c ≤ 'f' ∨ 'A' ≤ c ∧ c ≤ 'F'))
    | 8 => .ok (decide ('0' ≤ c ∧ c ≤ '7'))
    | _ => .error (.valueError "Bad radix")

/-- `is_alpha(ch)`. -/
def is_alpha (ch : Option Char) : Bool :=
  match ch with
  | none => false
  | some c => decide ('a' ≤ c ∧ c ≤ 'z' ∨ 'A' ≤ c ∧ c ≤ 'Z' ∨ c = '_')

/-- `is_alphanum(ch)`. -/
def is_alphanum (ch : Option Char) : Bool :=
  match ch with
  | none => false
  | some c =>
    decide ('a' ≤ c ∧ c ≤ 'z' ∨ 'A' ≤ c ∧ c ≤ 'Z' ∨ '0' ≤ c ∧ c ≤ '9' ∨ c = '_')

/-- `is_ws(ch)`.  Note the source's literal code points: the tuple on its
last line is `(133, 160, 5670, 8232, 8233, 8239, 8287, 12288)`. -/
def is_ws (ch : Option Char) : Bool :=
  match ch with
  | none => false
  | some c =>
    let cp := c.toNat
    decide (cp = 32 ∨ 9 ≤ cp ∧ cp ≤ 13 ∨ 8192 ≤ cp ∧ cp ≤ 8202 ∨
      cp ∈ [133, 160, 5670, 8232, 8233, 8239, 8287, 12288])

namespace JinjaStatementLexer

/-- `_do_next`: pop the character lookahead buffer, else read and advance
`template_pos`, else return the end sentinel. -/
def _do_next (st : LexerState) : Option Char × LexerState :=
  match st.ch_buf with
  | rv :: rest => (rv, { st with ch_buf := rest })
  | [] =>
    match st.template_text.get? st.template_pos with
    | some rv => (some rv, { st with template_pos := st.template_pos + 1 })
    | none => (none, st)

/-- `_next`: `_do_next`, appending the character to the active token buffer.
The Python guard is `if self.buf and rv != -1`: a `None` or *empty* buffer
(empty lists are falsy) receives nothing. -/
def _next (st : LexerState) : Option Char × LexerState :=
  let (rv, st') := _do_next st
  match st'.buf, rv with
  | some (b :: bs), some c => (rv, { st' with buf := some (b :: bs ++ [c]) })
  | _, _ => (rv, st')

/-- The filling loop of `_la`: append `n` results of `_do_next` to `ch_buf`
and return the last one.  Call sites guarantee `n ≥ 1`. -/
def _la_fill : Nat → LexerState → Option Char × LexerState
  | 0, st => (none, st)
  | 1, st =>
    let (la, st') := _do_next st
    (la, { st' with ch_buf := st'.ch_buf ++ [la] })
  | n + 2, st =>
    let (la, st') := _do_next st
    _la_fill (n + 1) { st' with ch_buf := st'.ch_buf ++ [la] }

/-- `_la(k)`: the k-th lookahead character (1-based, as at every call site),
buffering as needed.  Buffered characters may include the end sentinel. -/
def _la (st : LexerState) (k : Nat) : Option Char × LexerState :=
  match st.ch_buf.get? (k - 1) with
  | some la => (la, st)
  | none => _la_fill (k - st.ch_buf.length) st

/-- The body of `_clear_la` (`while self.ch_buf: self._next()`).  Each
`_next` pops exactly one buffered character, so the loop runs at most
`ch_buf.length` times; that length is the fuel `_clear_la` passes in. -/
def _clear_la_loop : Nat → LexerState → LexerState
  | 0, st => st
  | n + 1, st =>
    match st.ch_buf with
    | [] => st
    | _ :: _ => _clear_la_loop n (_next st).2

/-- `_clear_la`: consume every buffered lookahead character through `_next`
(so non-sentinel characters land in the active token buffer). -/
def _clear_la (st : LexerState) : LexerState :=
  _clear_la_loop st.ch_buf.length st

/-- `_start_buf(buf_token, ch=None)`: start the token text buffer unless the
token kind is ignored; seed it with `ch` when given. -/
def _start_buf (st : LexerState) (buf_token : TokenType) (ch : Option Char) : LexerState :=
  if buf_token ∈ st.ignore_tokens then st
  else
    match ch with
    | some c => { st with buf := some [c] }
    | none => { st with buf := some [] }

/-- `_clear_buf`: join and reset the token text buffer (`''` when the buffer
is `None` or empty). -/
def _clear_buf (st : LexerState) : String × LexerState :=
  let rv :=
    match st.buf with
    | some (b :: bs) => String.mk (b :: bs)
    | _ => ""
  (rv, { st with buf := none })

/-- The delimiter-matching inner loop (`while i < len(match_token)` in
`_next_token`, and the identical loops in `_do_statement`/`_do_comment`):
compare `_la(i)`, `_la(i+1)`, ... against the remaining delimiter characters,
leaving any probed characters buffered. -/
def match_rest : LexerState → List Char → Nat → Bool × LexerState
  | st, [], _ => (true, st)
  | st, c :: rest, i =>
    let (la, st') := _la st i
    if la = some c then match_rest st' rest (i + 1) else (false, st')

/-- The scanning loop of `_do_str`, carrying the opening quote and the
decoded `value_buf`.  After the checks for an escaped `n` and `r`, the source
line is `elif ch ==  '\n' | '\r':` — Python evaluates `'\n' | '\r'` first
(`|` binds tighter than `==`), and `str` has no `__or__`, so every escape
other than `n`/`r` raises `TypeError` here and all the later `elif` branches
(`t`, `x`, octal, `N`, `u`, `U`, `a`, `b`, `f`, `v`, default) are
unreachable. -/
def _do_str_loop (fuel : Nat) (st : LexerState) (start_pos : Nat) (opening_qchar : Char)
    (value_buf : List Char) : Res Token :=
  match fuel with
  | 0 => .fuelOut
  | fuel + 1 =>
    let (cho, st) := _next st
    match cho with
    | none => .ok (mkTok .EOF "" st.template_pos) st
    | some ch =>
      if ch = opening_qchar then
        let (txt, st) := _clear_buf st
        .ok { tok_type := .STR_LIT, text := txt, offset := start_pos,
              value := .str (String.mk value_buf) } st
      else if ch = '\\' then
        let (ch2o, st) := _next st
        match ch2o with
        | none => .ok (mkTok .EOF "" st.template_pos) st
        | some c =>
          if c = 'n' then _do_str_loop fuel st start_pos opening_qchar (value_buf ++ ['\n'])
          else if c = 'r' then _do_str_loop fuel st start_pos opening_qchar (value_buf ++ ['\r'])
          else .err (.typeError "unsupported operand types for |")
      else _do_str_loop fuel st start_pos opening_qchar (value_buf ++ [ch])

/-- `_do_str(start_pos, ch)`: start the raw-text buffer with the opening
quote and scan. -/
def _do_str (fuel : Nat) (st : LexerState) (start_pos : Nat) (ch : Char) : Res Token :=
  let st := _start_buf st .STR_LIT (some ch)
  _do_str_loop fuel st start_pos ch []

/-- Value of one digit character, as accepted by Python's `int` with an
explicit base. -/
def digitVal (c : Char) : Option Nat :=
  if '0' ≤ c ∧ c ≤ '9' then some (c.toNat - 48)
  else if 'a' ≤ c ∧ c ≤ 'z' then some (c.toNat - 87)
  else if 'A' ≤ c ∧ c ≤ 'Z' then some (c.toNat - 55)
  else none

/-- Digits-to-number accumulation for `int(s, radix)`. -/
def digitsVal (radix : Nat) : List Char → Option Nat → Option Nat
  | [], acc => acc
  | c :: cs, acc =>
    match digitVal c, acc with
    | some d, some a => if d < radix then digitsVal radix cs (some (a * radix + d)) else none
    | _, _ => none

/-- Python's built-in `int(s, radix)` on the strings this lexer can produce:
an optional sign, then (when the base is 16/8/2) an optional matching
`0x`/`0o`/`0b` prefix, then at least one digit of the base.  Anything else
raises `ValueError`.  (The built-in also strips whitespace and allows
underscores; the lexer never produces such strings.) -/
def pyInt (s : String) (radix : Nat) : Except PyErr Value :=
  let (sign, cs) : Int × List Char :=
    match s.data with
    | '+' :: t => (1, t)
    | '-' :: t => (-1, t)
    | t => (1, t)
  let cs :=
    match radix, cs with
    | 16, '0' :: 'x' :: t => t
    | 16, '0' :: 'X' :: t => t
    | 8, '0' :: 'o' :: t => t
    | 8, '0' :: 'O' :: t => t
    | 2, '0' :: 'b' :: t => t
    | 2, '0' :: 'B' :: t => t
    | _, t => t
  match cs, digitsVal radix cs (some 0) with
  | _ :: _, some n => .ok (.int (sign * (n : Int)))
  | _, _ => .error (.valueError "invalid literal for int")

/-- Format check for Python's built-in `float(s)` on lexer-produced strings:
optional sign, then digits with an optional fractional part or a fractional
part alone, then an optional exponent with at least one digit. -/
def pyFloatOk (cs : List Char) : Bool :=
  let isDec : Char → Bool := fun c => decide ('0' ≤ c ∧ c ≤ '9')
  let expOk : List Char → Bool := fun l =>
    match l with
    | [] => true
    | e :: t =>
      if e = 'e' ∨ e = 'E' then
        let t := match t with | '+' :: u => u | '-' :: u => u | u => u
        let (d, r) := t.span isDec
        decide (d ≠ [] ∧ r = [])
      else false
  let cs := match cs with | '+' :: t => t | '-' :: t => t | t => t
  let (d1, rest) := cs.span isDec
  match rest with
  | '.' :: t =>
    let (d2, rest2) := t.span isDec
    (decide (d1 ≠ [] ∨ d2 ≠ [])) && expOk rest2
  | _ => (decide (d1 ≠ [])) && expOk rest

/-- Python's `float(s)`, with the IEEE value itself kept symbolic (see
`Value.float`); a malformed literal raises `ValueError`. -/
def pyFloat (s : String) : Except PyErr Value :=
  if pyFloatOk s.data then .ok (.float s) else .error (.valueError "could not convert string to float")

/-- The digit-consuming loops of `_do_num`
(`while True: la = self._la(); if not is_digit(la, radix): break; self._next()`).
`is_digit` can raise `ValueError` for radix 2. -/
def digits_run (fuel : Nat) (st : LexerState) (radix : Nat) : Res Unit :=
  match fuel with
  | 0 => .fuelOut
  | fuel + 1 =>
    let (la1, st) := _la st 1
    match is_digit la1 radix with
    | .error e => .err e
    | .ok b =>
      if b then
        let (_, st) := _next st
        digits_run fuel st radix
      else .ok () st

/-- The radix selection of `_do_num` (`if ch == '0': la = self._la(); ...`):
a leading `0` followed by `x`/`X`, `b`/`B`, `o`/`O` selects base 16/2/8,
consuming the radix letter. -/
def num_radix (st : LexerState) (ch : Char) : Nat × LexerState :=
  if ch = '0' then
    let (la1, st) := _la st 1
    if la1 = some 'x' ∨ la1 = some 'X' then (16, (_next st).2)
    else if la1 = some 'b' ∨ la1 = some 'B' then (2, (_next st).2)
    else if la1 = some 'o' ∨ la1 = some 'O' then (8, (_next st).2)
    else (10, st)
  else (10, st)

/-- The fractional-part step of `_do_num` (`la = self._la(); if la == '.':
num_conv = float; self._next(); <digit loop>`): returns whether `num_conv`
became `float`. -/
def num_frac (fuel : Nat) (st : LexerState) : Res Bool :=
  let (la1, st) := _la st 1
  if la1 = some '.' then
    let (_, st) := _next st
    match digits_run fuel st 10 with
    | .err e => .err e
    | .fuelOut => .fuelOut
    | .ok _ st => .ok true st
  else .ok false st

/-- The exponent step of `_do_num` (`la = self._la(); if la == 'e' or la ==
'E': ...`), carried the `num_conv` flag so far. -/
def num_exp (fuel : Nat) (st : LexerState) (isFloat : Bool) : Res Bool :=
  let (la1, st) := _la st 1
  if la1 = some 'e' ∨ la1 = some 'E' then
    let (_, st) := _next st
    match digits_run fuel st 10 with
    | .err e => .err e
    | .fuelOut => .fuelOut
    | .ok _ st => .ok true st
  else .ok isFloat st

/-- `_do_num` after the sign handling, from the `if ch == '.':` check on. -/
def _do_num_body (fuel : Nat) (st : LexerState) (start_pos : Nat) (ch : Char) : Res Token :=
  if ch = '.' then
    match digits_run fuel st 10 with
    | .err e => .err e
    | .fuelOut => .fuelOut
    | .ok _ st =>
      let (value, st) := _clear_buf st
      match pyFloat value with
      | .error e => .err e
      | .ok v => .ok { tok_type := .NUM_LIT, text := value, offset := start_pos, value := v } st
  else
    let (radix, st) := num_radix st ch
    match digits_run fuel st radix with
    | .err e => .err e
    | .fuelOut => .fuelOut
    | .ok _ st =>
      if radix ≠ 10 then
        let (value, st) := _clear_buf st
        match pyInt value radix with
        | .error e => .err e
        | .ok v => .ok { tok_type := .NUM_LIT, text := value, offset := start_pos, value := v } st
      else
        match num_frac fuel st with
        | .err e => .err e
        | .fuelOut => .fuelOut
        | .ok isFloat st =>
          match num_exp fuel st isFloat with
          | .err e => .err e
          | .fuelOut => .fuelOut
          | .ok isFloat st =>
            let (value, st) := _clear_buf st
            match (if isFloat then pyFloat value else pyInt value 10) with
            | .error e => .err e
            | .ok v => .ok { tok_type := .NUM_LIT, text := value, offset := start_pos, value := v } st

/-- `_do_num(start_pos, ch)`: start the raw-text buffer, consume a sign if
`ch` is one (returning the EOF token if input ends right after it), then the
body. -/
def _do_num (fuel : Nat) (st : LexerState) (start_pos : Nat) (ch : Char) : Res Token :=
  let st := _start_buf st .NUM_LIT (some ch)
  if ch = '-' ∨ ch = '+' then
    let (ch2o, st) := _next st
    match ch2o with
    | none => .ok (mkTok .EOF "" st.template_pos) st
    | some c => _do_num_body fuel st start_pos c
  else _do_num_body fuel st start_pos ch

/-- The whitespace run of `_do_statement` (the `is_ws(ch)` branch): collapse
a maximal whitespace run into one token; in single-line mode a run ending in
a line break is the statement terminator instead. -/
def ws_run (fuel : Nat) (st : LexerState) (start_pos : Nat) (end_tok_type : TokenType)
    (single_line : Bool) : Res Token :=
  match fuel with
  | 0 => .fuelOut
  | fuel + 1 =>
    let (la1, st) := _la st 1
    if is_ws la1 then
      let (_, st) := _next st
      ws_run fuel st start_pos end_tok_type single_line
    else
      let (value, st) := _clear_buf st
      if single_line ∧ (value.endsWith "\r\n" ∨ value.endsWith "\n" ∨ value.endsWith "\r") then
        .ok (mkTok end_tok_type value start_pos) st
      else .ok (mkTok .WS value start_pos) st

/-- The identifier run of `_do_statement` (the `is_alpha(ch)` branch). -/
def name_run (fuel : Nat) (st : LexerState) (start_pos : Nat) : Res Token :=
  match fuel with
  | 0 => .fuelOut
  | fuel + 1 =>
    let (la1, st) := _la st 1
    if is_alphanum la1 then
      let (_, st) := _next st
      name_run fuel st start_pos
    else
      let (txt, st) := _clear_buf st
      .ok (mkTok .NAME_OR_KEYWORD txt start_pos) st

/-- The regular-lexicon `elif` chain of `_do_statement`, entered when the
consumed character `ch` did not complete the terminator.  The `+`/`-` branch
reproduces the source line `return _do_num(start_pos, ch)`: the call is
unqualified (no `self.`) and no module-level `_do_num` exists, so reaching it
raises `NameError`.  In the `*`/`/` and `>`/`<` branches the second character
comes from `self._next()` exactly as in the f-string `f'{ch}{self._next()}'`;
the lookahead that guarded the branch guarantees it is a real character, and
the unreachable sentinel case renders `-1` as Python's f-string would. -/
def _do_statement_tail (fuel : Nat) (st : LexerState) (ch : Char) (start_pos : Nat)
    (end_tok_type : TokenType) (single_line : Bool) : Res Token :=
  if ch = '(' then .ok (mkTok .L_PAREN (String.mk [ch]) start_pos) st
  else if ch = ')' then .ok (mkTok .R_PAREN (String.mk [ch]) start_pos) st
  else if ch = '[' then .ok (mkTok .L_BRACKET (String.mk [ch]) start_pos) st
  else if ch = ']' then .ok (mkTok .R_BRACKET (String.mk [ch]) start_pos) st
  else if ch = '{' then .ok (mkTok .L_BRACE (String.mk [ch]) start_pos) st
  else if ch = '}' then .ok (mkTok .R_BRACE (String.mk [ch]) start_pos) st
  else if ch = ',' then .ok (mkTok .COMMA (String.mk [ch]) start_pos) st
  else if ch = '|' then .ok (mkTok .PIPE (String.mk [ch]) start_pos) st
  else if ch = ':' then .ok (mkTok .COLON (String.mk [ch]) start_pos) st
  else if ch = '.' then
    let (la1, st) := _la st 1
    match is_digit la1 10 with
    | .error e => .err e
    | .ok b =>
      if b then _do_num fuel st start_pos ch
      else .ok (mkTok .DOT (String.mk [ch]) start_pos) st
  else if ch = '+' ∨ ch = '-' then
    let (la1, st) := _la st 1
    match is_digit la1 10 with
    | .error e => .err e
    | .ok b =>
      if b then .err (.nameError "_do_num")
      else .ok (mkTok .MATH_OP_OR_STAR_ARGS (String.mk [ch]) start_pos) st
  else if ch = '*' ∨ ch = '/' then
    let (la1, st) := _la st 1
    if la1 = some ch then
      let (c2o, st) := _next st
      match c2o with
      | some c2 => .ok (mkTok .MATH_OP_OR_STAR_ARGS (String.mk [ch, c2]) start_pos) st
      | none => .ok (mkTok .MATH_OP_OR_STAR_ARGS (String.mk [ch] ++ "-1") start_pos) st
    else .ok (mkTok .MATH_OP_OR_STAR_ARGS (String.mk [ch]) start_pos) st
  else if ch = '>' ∨ ch = '<' then
    let (la1, st) := _la st 1
    if la1 = some '=' then
      let (c2o, st) := _next st
      match c2o with
      | some c2 => .ok (mkTok .COMPARE_OP (String.mk [ch, c2]) start_pos) st
      | none => .ok (mkTok .COMPARE_OP (String.mk [ch] ++ "-1") start_pos) st
    else .ok (mkTok .MATH_OP_OR_STAR_ARGS (String.mk [ch]) start_pos) st
  else if ch = '=' then
    let (la1, st) := _la st 1
    if la1 = some '=' then
      let (_, st) := _next st
      .ok (mkTok .COMPARE_OP "==" start_pos) st
    else .ok (mkTok .EQ "=" start_pos) st
  else if ch = '"' ∨ ch = '\'' then _do_str fuel st start_pos ch
  else
    match is_digit (some ch) 10 with
    | .error e => .err e
    | .ok b =>
      if b then _do_num fuel st start_pos ch
      else if is_ws (some ch) then
        let st := _start_buf st .WS (some ch)
        ws_run fuel st start_pos end_tok_type single_line
      else if is_alpha (some ch) then
        let st := _start_buf st .NAME_OR_KEYWORD (some ch)
        name_run fuel st start_pos
      else .err (.invalidSyntaxError ("Invalid token: " ++ String.mk [ch]) start_pos)

/-- `_do_statement(terminator, end_tok_type, single_line)`: consume one
character (EOF token at end of input), probe for the terminator when one is
configured (`if terminator:` — `None` and the empty string are falsy), else
fall through to the regular lexicon with whatever the probe left buffered. -/
def _do_statement (fuel : Nat) (st : LexerState) (terminator : Option (List Char))
    (end_tok_type : TokenType) (single_line : Bool) : Res Token :=
  let start_pos := st.template_pos
  let (cho, st) := _next st
  match cho with
  | none => .ok (mkTok .EOF "" st.template_pos) st
  | some ch =>
    match terminator with
    | some (t0 :: trest) =>
      if ch = t0 then
        let (matched, st) := match_rest st trest 1
        if matched then
          let st := _clear_la st
          let (txt, st) := _clear_buf st
          .ok (mkTok end_tok_type txt start_pos) st
        else _do_statement_tail fuel st ch start_pos end_tok_type single_line
      else _do_statement_tail fuel st ch start_pos end_tok_type single_line
    | _ => _do_statement_tail fuel st ch start_pos end_tok_type single_line

/-- The terminator epilogue of `_do_comment` (`if rv: ...`).  `rv`'s text was
taken by `_clear_buf`, which also resets the buffer, so the
`if self.buf:` re-queueing branch can never fire; it is embedded anyway. -/
def _do_comment_emit (st : LexerState) (start_pos : Nat) : Res Token :=
  let (txt, st) := _clear_buf st
  let rv := mkTok .COMMENT_END txt start_pos
  match st.buf with
  | some (_ :: _) =>
    let st := { st with la_buf := st.la_buf ++ [rv] }
    let (txt2, st) := _clear_buf st
    .ok (mkTok .COMMENT_DATA txt2 start_pos) st
  | _ => .ok rv st

/-- The scanning loop of `_do_comment`.  In single-line mode a `\r`
(swallowing a following `\n`) or `\n` terminates; otherwise the configured
`comment_end` delimiter is probed (subscripting it unconditionally: a `None`
delimiter would raise `TypeError`, an empty one `IndexError`). -/
def _do_comment_loop (fuel : Nat) (st : LexerState) (start_pos : Nat)
    (single_line : Bool) : Res Token :=
  match fuel with
  | 0 => .fuelOut
  | fuel + 1 =>
    let (cho, st) := _next st
    match cho with
    | none => .ok (mkTok .EOF "" st.template_pos) st
    | some ch =>
      if single_line then
        if ch = '\r' then
          let (la1, st) := _la st 1
          let st := if la1 = some '\n' then (_next st).2 else st
          _do_comment_emit st start_pos
        else if ch = '\n' then _do_comment_emit st start_pos
        else _do_comment_loop fuel st start_pos single_line
      else
        match st.comment_end with
        | none => .err (.typeError "NoneType is not subscriptable")
        | some [] => .err (.indexError "string index out of range")
        | some (c0 :: crest) =>
          if ch = c0 then
            let (matched, st) := match_rest st crest 1
            if matched then
              let st := _clear_la st
              _do_comment_emit st start_pos
            else _do_comment_loop fuel st start_pos single_line
          else _do_comment_loop fuel st start_pos single_line

/-- `_do_comment(single_line)`: start the comment-data buffer (a no-op when
`COMMENT_DATA` is ignored — and since `_start_buf` seeds it empty and empty
lists are falsy, `_next` never fills it even when it is started) and scan. -/
def _do_comment (fuel : Nat) (st : LexerState) (single_line : Bool) : Res Token :=
  let start_pos := st.template_pos
  let st := _start_buf st .COMMENT_DATA none
  _do_comment_loop fuel st start_pos single_line

/-- One delimiter probe of the template-text state's `for match_token,
tok_type in (...)` loop: skipped when the delimiter is unset/empty or its
first character differs; otherwise the remaining characters are compared via
lookahead (`match_pos` is read *after* the first character was consumed and
before the probe advances the cursor).  Returns the match flag, the recorded
position, and the state with whatever the probe buffered. -/
def try_match (st : LexerState) (ch : Char) (mto : Option (List Char)) :
    Bool × Nat × LexerState :=
  match mto with
  | some (m0 :: mrest) =>
    if ch = m0 then
      let match_pos := st.template_pos
      let (matched, st') := match_rest st mrest 1
      (matched, match_pos, st')
    else (false, 0, st)
  | _ => (false, 0, st)

/-- Emission after a successful delimiter match in the template-text state:
discard the probed lookahead, build the delimiter token, switch to the
delimiter's lexical state, and — when literal text is pending — defer the
delimiter token through state 6 and emit the literal first. -/
def s0_emit (st : LexerState) (tok_type : TokenType) (mt : List Char) (match_pos : Nat)
    (start_pos : Nat) (buf : List Char) : Res Token :=
  let st := _clear_la st
  let tok := mkTok tok_type (String.mk mt) match_pos
  let new_state : Nat :=
    match tok_type with
    | .STATEMENT_START => 1
    | .COMMENT_START => 2
    | .INLINE_START => 5
    | .LINE_STATEMENT_PFX => 3
    | .LINE_COMMENT_PFX => 4
    | _ => st.state
  let st := { st with state := new_state }
  match buf with
  | _ :: _ =>
    let st := { st with buf_tok := some tok, buf_state := some st.state, state := 6 }
    .ok (mkTok .TEMPLATE_DATA (String.mk buf) start_pos) st
  | [] => .ok tok st

/-- The template-text scanning loop (state 0 of `_next_token`): accumulate
literal characters, probing each one against the five delimiters in source
order (block, inline, comment, line-statement, line-comment). -/
def s0_loop (fuel : Nat) (st : LexerState) (start_pos : Nat) (buf : List Char) : Res Token :=
  match fuel with
  | 0 => .fuelOut
  | fuel + 1 =>
    let (cho, st) := _next st
    match cho with
    | none =>
      match buf with
      | _ :: _ => .ok (mkTok .TEMPLATE_DATA (String.mk buf) start_pos) st
      | [] => .ok (mkTok .EOF "" st.template_pos) st
    | some ch =>
      let (m1, p1, st) := try_match st ch st.block_start
      if m1 then s0_emit st .STATEMENT_START (st.block_start.getD []) p1 start_pos buf
      else
        let (m2, p2, st) := try_match st ch st.inline_start
        if m2 then s0_emit st .INLINE_START (st.inline_start.getD []) p2 start_pos buf
        else
          let (m3, p3, st) := try_match st ch st.comment_start
          if m3 then s0_emit st .COMMENT_START (st.comment_start.getD []) p3 start_pos buf
          else
            let (m4, p4, st) := try_match st ch st.line_statement_pfx
            if m4 then s0_emit st .LINE_STATEMENT_PFX (st.line_statement_pfx.getD []) p4 start_pos buf
            else
              let (m5, p5, st) := try_match st ch st.line_comment_pfx
              if m5 then s0_emit st .LINE_COMMENT_PFX (st.line_comment_pfx.getD []) p5 start_pos buf
              else s0_loop fuel st start_pos (buf ++ [ch])

/-- `_next_token`: dispatch on the lexical state.  States 1/3/5 share the
statement sub-lexer (choosing terminator and end-token kind; state 3 is
single-line), 2/4 the comment sub-lexer; 6 replays the deferred token and
restores the recorded state (`buf_state` is always set when state 6 is
entered; were it not, Python would set `self.state = None` and the dispatch
loop below would spin forever, which the sentinel 99 reproduces; a missing
`buf_tok` would be returned as `None` and crash the caller with
`AttributeError`).  A state matching no branch loops forever in the source
(`while True` with local `state` never reassigned), hence the fuel-consuming
recursion in the final case. -/
def _next_token (fuel : Nat) (st : LexerState) : Res Token :=
  match fuel with
  | 0 => .fuelOut
  | fuel + 1 =>
    let state := st.state
    if state = 0 then s0_loop fuel st st.template_pos []
    else if state = 1 ∨ state = 3 ∨ state = 5 then
      let (terminator, end_tok_type) : Option (List Char) × TokenType :=
        if state = 1 then (st.block_end, .STATEMENT_END)
        else if state = 3 then (none, .STATEMENT_END)
        else (st.inline_end, .INLINE_END)
      match _do_statement fuel st terminator end_tok_type (state = 3) with
      | .ok rv st' =>
        if rv.tok_type = end_tok_type then .ok rv { st' with state := 0 } else .ok rv st'
      | .err e => .err e
      | .fuelOut => .fuelOut
    else if state = 2 ∨ state = 4 then
      match _do_comment fuel st (state = 4) with
      | .ok rv st' =>
        if rv.tok_type = .COMMENT_END then .ok rv { st' with state := 0 } else .ok rv st'
      | .err e => .err e
      | .fuelOut => .fuelOut
    else if state = 6 then
      match st.buf_tok with
      | some tok =>
        .ok tok { st with buf_tok := none, state := st.buf_state.getD 99, buf_state := none }
      | none => .err (.attributeError "NoneType has no attribute tok_type")
    else _next_token fuel st

/-- `next_token`: drain the token lookahead buffer first, else produce raw
tokens, silently skipping the ignored kinds. -/
def next_token (fuel : Nat) (st : LexerState) : Res Token :=
  match fuel with
  | 0 => .fuelOut
  | fuel + 1 =>
    match st.la_buf with
    | tok :: rest => .ok tok { st with la_buf := rest }
    | [] =>
      match _next_token fuel st with
      | .ok tok st' =>
        if tok.tok_type ∈ st'.ignore_tokens then next_token fuel st' else .ok tok st'
      | .err e => .err e
      | .fuelOut => .fuelOut

/-- The producing loop of `la`: append `n` further non-ignored tokens to the
token lookahead buffer and return the last one.  Call sites pass `n ≥ 1`. -/
def la_fill (fuel : Nat) (st : LexerState) (n : Nat) : Res Token :=
  match fuel with
  | 0 => .fuelOut
  | fuel + 1 =>
    match _next_token fuel st with
    | .ok t st' =>
      if t.tok_type ∈ st'.ignore_tokens then la_fill fuel st' n
      else
        let st' := { st' with la_buf := st'.la_buf ++ [t] }
        if n ≤ 1 then .ok t st' else la_fill fuel st' (n - 1)
    | .err e => .err e
    | .fuelOut => .fuelOut

/-- `la(k)`: the k-th lookahead token (1-based, as at every call site):
already-buffered tokens are reused, the rest are produced and buffered. -/
def la (fuel : Nat) (st : LexerState) (k : Nat) : Res Token :=
  match st.la_buf.get? (k - 1) with
  | some tok => .ok tok st
  | none => la_fill fuel st (k - st.la_buf.length)

end JinjaStatementLexer

/-- One element of the parsed document: the source dataclasses
`TemplateText` (which stores the token's `value`), `TemplateStatement`
(`l_ws_control`, `command`, `tokens`, `r_ws_control` — the markers and the
command are token `value`s), and `TemplateInline`. -/
inductive TemplateElement where
  | text (t : Value)
  | statement (l_ws_control : Option Value) (command : Value) (tokens : List Token)
      (r_ws_control : Option Value)
  | inline (tokens : List Token)
  deriving DecidableEq, Repr

/-- The `TemplateDocument` dataclass: the ordered element list. -/
structure TemplateDocument where
  elements : List TemplateElement
  deriving DecidableEq, Repr

/-- `check_tok(tok, *expected)`: raise `UnexpectedTokenError` unless the
token kind is one of the expected kinds. -/
def check_tok (tok : Token) (expected : List TokenType) : Except PyErr Token :=
  if tok.tok_type ∈ expected then .ok tok else .error (.unexpectedTokenError tok expected)

namespace JinjaStatementParser

open JinjaStatementLexer

/-- The token-collecting loop of `statement()`: consume tokens until the
statement terminator; for a block statement, a `+`/`-` token whose lookahead
is the terminator is captured as the right whitespace-control marker instead
of being appended. -/
def stmt_loop (fuel : Nat) (st : LexerState) (is_block : Bool) (l_ws_control : Option Value)
    (command : Value) (tokens : List Token) (r_ws_control : Option Value) :
    Res TemplateElement :=
  match fuel with
  | 0 => .fuelOut
  | fuel + 1 =>
    match next_token fuel st with
    | .err e => .err e
    | .fuelOut => .fuelOut
    | .ok tok st =>
      if tok.tok_type = .STATEMENT_END then
        .ok (.statement l_ws_control command tokens r_ws_control) st
      else if is_block ∧ (tok.value = .str "+" ∨ tok.value = .str "-") then
        match la fuel st 1 with
        | .err e => .err e
        | .fuelOut => .fuelOut
        | .ok la1 st =>
          if la1.tok_type = .STATEMENT_END then
            stmt_loop fuel st is_block l_ws_control command tokens (some tok.value)
          else stmt_loop fuel st is_block l_ws_control command (tokens ++ [tok]) r_ws_control
      else stmt_loop fuel st is_block l_ws_control command (tokens ++ [tok]) r_ws_control

/-- `statement()` after the optional left whitespace-control marker: consume
the command name token and run the collecting loop. -/
def stmt_command (fuel : Nat) (st : LexerState) (is_block : Bool)
    (l_ws_control : Option Value) : Res TemplateElement :=
  match next_token fuel st with
  | .err e => .err e
  | .fuelOut => .fuelOut
  | .ok tok st =>
    match check_tok tok [.NAME_OR_KEYWORD] with
    | .error e => .err e
    | .ok tok => stmt_loop fuel st is_block l_ws_control tok.value [] none

/-- `statement()`: consume the opening delimiter (block or line style), an
optional literal `+`/`-` (block style only) as the left whitespace-control
marker, the command name, then the argument tokens. -/
def statement (fuel : Nat) (st : LexerState) : Res TemplateElement :=
  match fuel with
  | 0 => .fuelOut
  | fuel + 1 =>
    match next_token fuel st with
    | .err e => .err e
    | .fuelOut => .fuelOut
    | .ok tok st =>
      match check_tok tok [.STATEMENT_START, .LINE_STATEMENT_PFX] with
      | .error e => .err e
      | .ok tok =>
        let is_block := tok.tok_type = .STATEMENT_START
        match la fuel st 1 with
        | .err e => .err e
        | .fuelOut => .fuelOut
        | .ok la1 st =>
          if is_block ∧ (la1.value = .str "+" ∨ la1.value = .str "-") then
            match next_token fuel st with
            | .err e => .err e
            | .fuelOut => .fuelOut
            | .ok m st => stmt_command fuel st is_block (some m.value)
          else stmt_command fuel st is_block none

/-- The token-collecting loop of `inline()`. -/
def inline_loop (fuel : Nat) (st : LexerState) (tokens : List Token) : Res TemplateElement :=
  match fuel with
  | 0 => .fuelOut
  | fuel + 1 =>
    match next_token fuel st with
    | .err e => .err e
    | .fuelOut => .fuelOut
    | .ok tok st =>
      if tok.tok_type = .INLINE_END then .ok (.inline tokens) st
      else inline_loop fuel st (tokens ++ [tok])

/-- `inline()`: consume the opening delimiter, then all tokens up to the
inline terminator. -/
def inline (fuel : Nat) (st : LexerState) : Res TemplateElement :=
  match fuel with
  | 0 => .fuelOut
  | fuel + 1 =>
    match next_token fuel st with
    | .err e => .err e
    | .fuelOut => .fuelOut
    | .ok tok st =>
      match check_tok tok [.INLINE_START] with
      | .error e => .err e
      | .ok _ => inline_loop fuel st []

/-- The element loop of `document()`: dispatch on the lookahead token kind;
any kind other than template data, a statement/inline opener, a
line-statement prefix, or end of input is an unexpected-token error. -/
def document_loop (fuel : Nat) (st : LexerState) (elements : List TemplateElement) :
    Res TemplateDocument :=
  match fuel with
  | 0 => .fuelOut
  | fuel + 1 =>
    match la fuel st 1 with
    | .err e => .err e
    | .fuelOut => .fuelOut
    | .ok la1 st =>
      match la1.tok_type with
      | .TEMPLATE_DATA =>
        match next_token fuel st with
        | .err e => .err e
        | .fuelOut => .fuelOut
        | .ok t st => document_loop fuel st (elements ++ [.text t.value])
      | .STATEMENT_START =>
        match statement fuel st with
        | .err e => .err e
        | .fuelOut => .fuelOut
        | .ok el st => document_loop fuel st (elements ++ [el])
      | .INLINE_START =>
        match inline fuel st with
        | .err e => .err e
        | .fuelOut => .fuelOut
        | .ok el st => document_loop fuel st (elements ++ [el])
      | .LINE_STATEMENT_PFX =>
        match statement fuel st with
        | .err e => .err e
        | .fuelOut => .fuelOut
        | .ok el st => document_loop fuel st (elements ++ [el])
      | .EOF => .ok ⟨elements⟩ st
      | _ =>
        .err (.unexpectedTokenError la1
          [.TEMPLATE_DATA, .STATEMENT_START, .INLINE_START, .LINE_STATEMENT_PFX])

/-- `document()`: the element loop started with an empty element list. -/
def document (fuel : Nat) (st : LexerState) : Res TemplateDocument :=
  document_loop fuel st []

end JinjaStatementParser

/-- The lexer `statement_parse` constructs: delimiters `{%`…`%}`, `{{`…`}}`,
`{#`…`#}`, no line prefixes, ignoring whitespace and comment tokens. -/
def mkLexer (text : List Char) : LexerState :=
  { template_text := text
    block_start := some ['{', '%']
    block_end := some ['%', '}']
    inline_start := some ['{', '{']
    inline_end := some ['}', '}']
    comment_start := some ['{', '#']
    comment_end := some ['#', '}']
    line_statement_pfx := none
    line_comment_pfx := none
    ignore_tokens := [.WS, .COMMENT_START, .COMMENT_DATA, .COMMENT_END, .LINE_COMMENT_PFX]
    buf_tok := none
    buf_state := none
    template_pos := 0
    ch_buf := []
    la_buf := []
    state := 0
    buf := none }

/-- `statement_parse(text)`: parse a document with the default
configuration. -/
def statement_parse (fuel : Nat) (text : List Char) : Res TemplateDocument :=
  JinjaStatementParser.document fuel (mkLexer text)

/-- Projection: the document produced by a successful run. -/
def docOf (r : Res TemplateDocument) : Option TemplateDocument :=
  match r with
  | .ok d _ => some d
  | _ => none

/-- Projection: the token produced by a successful run. -/
def tokOf (r : Res Token) : Option Token :=
  match r with
  | .ok t _ => some t
  | _ => none

/-- Run the raw token production `count` times from a state, collecting the
tokens produced (stopping early on error or fuel exhaustion); evidence
helper for exhibiting a lexer's raw token stream. -/
def raw_toks (fuel : Nat) : Nat → LexerState → List Token
  | 0, _ => []
  | n + 1, st =>
    match JinjaStatementLexer._next_token fuel st with
    | .ok t st' => t :: raw_toks fuel n st'
    | _ => []

/-- Iterate the client-facing `next_token` `n` times, collecting the
returned tokens. -/
def next_n (fuel : Nat) : Nat → LexerState → Res (List Token)
  | 0, st => .ok [] st
  | n + 1, st =>
    match JinjaStatementLexer.next_token fuel st with
    | .err e => .err e
    | .fuelOut => .fuelOut
    | .ok t st' =>
      match next_n fuel n st' with
      | .err e => .err e
      | .fuelOut => .fuelOut
      | .ok ts st'' => .ok (t :: ts) st''

/-! ## Fuel monotonicity

Every loop of the embedding only consumes fuel; once a call returns a
non-`fuelOut` result, any larger fuel returns the same result.  These lemmas
let concrete runs (checked by `decide` at a fixed fuel) be transported to an
arbitrary symbolic fuel. -/

namespace JinjaStatementLexer

theorem digits_run_mono : ∀ f g st radix, f ≤ g → digits_run f st radix ≠ .fuelOut →
    digits_run g st radix = digits_run f st radix := by
  intro f
  induction f with
  | zero => intro g st radix _ hne; exact absurd rfl hne
  | succ f IH =>
    intro g st radix hle hne
    obtain ⟨g, rfl⟩ : ∃ gp, g = gp + 1 := ⟨g - 1, by omega⟩
    simp only [digits_run] at hne ⊢
    rcases h1 : _la st 1 with ⟨la1, st1⟩
    simp only [h1] at hne ⊢
    rcases h2 : is_digit la1 radix with e | b
    · simp only [h2]
    · simp only [h2] at hne ⊢
      cases b with
      | false => simp
      | true =>
        try simp only [reduceIte] at hne ⊢
        rcases h3 : _next st1 with ⟨c, st2⟩
        simp only [h3] at hne ⊢
        exact IH g st2 radix (by omega) hne

theorem ws_run_mono : ∀ f g st start_pos ett sl, f ≤ g → ws_run f st start_pos ett sl ≠ .fuelOut →
    ws_run g st start_pos ett sl = ws_run f st start_pos ett sl := by
  intro f
  induction f with
  | zero => intro g st start_pos ett sl _ hne; exact absurd rfl hne
  | succ f IH =>
    intro g st start_pos ett sl hle hne
    obtain ⟨g, rfl⟩ : ∃ gp, g = gp + 1 := ⟨g - 1, by omega⟩
    simp only [ws_run] at hne ⊢
    rcases h1 : _la st 1 with ⟨la1, st1⟩
    simp only [h1] at hne ⊢
    cases hw : is_ws la1 with
    | false => simp [hw]
    | true =>
      simp only [hw, reduceIte] at hne ⊢
      rcases h3 : _next st1 with ⟨c, st2⟩
      simp only [h3] at hne ⊢
      exact IH g st2 start_pos ett sl (by omega) hne

theorem name_run_mono : ∀ f g st start_pos, f ≤ g → name_run f st start_pos ≠ .fuelOut →
    name_run g st start_pos = name_run f st start_pos := by
  intro f
  induction f with
  | zero => intro g st start_pos _ hne; exact absurd rfl hne
  | succ f IH =>
    intro g st start_pos hle hne
    obtain ⟨g, rfl⟩ : ∃ gp, g = gp + 1 := ⟨g - 1, by omega⟩
    simp only [name_run] at hne ⊢
    rcases h1 : _la st 1 with ⟨la1, st1⟩
    simp only [h1] at hne ⊢
    cases hw : is_alphanum la1 with
    | false => simp [hw]
    | true =>
      simp only [hw, reduceIte] at hne ⊢
      rcases h3 : _next st1 with ⟨c, st2⟩
      simp only [h3] at hne ⊢
      exact IH g st2 start_pos (by omega) hne

theorem _do_str_loop_mono : ∀ f g st start_pos q vb, f ≤ g →
    _do_str_loop f st start_pos q vb ≠ .fuelOut →
    _do_str_loop g st start_pos q vb = _do_str_loop f st start_pos q vb := by
  intro f
  induction f with
  | zero => intro g st start_pos q vb _ hne; exact absurd rfl hne
  | succ f IH =>
    intro g st start_pos q vb hle hne
    obtain ⟨g, rfl⟩ : ∃ gp, g = gp + 1 := ⟨g - 1, by omega⟩
    simp only [_do_str_loop] at hne ⊢
    rcases h1 : _next st with ⟨cho, st1⟩
    simp only [h1] at hne ⊢
    rcases cho with _ | ch
    · rfl
    · by_cases hq : ch = q
      · simp only [hq, reduceIte]
      · simp only [hq, reduceIte] at hne ⊢
        by_cases hb : ch = '\\'
        · simp only [hb, reduceIte] at hne ⊢
          rcases h2 : _next st1 with ⟨ch2o, st2⟩
          simp only [h2] at hne ⊢
          rcases ch2o with _ | c2
          · rfl
          · by_cases hn : c2 = 'n'
            · simp only [hn, reduceIte] at hne ⊢
              exact IH g st2 start_pos q (vb ++ ['\n']) (by omega) hne
            · by_cases hr : c2 = 'r'
              · simp only [hn, hr, reduceIte] at hne ⊢
                exact IH g st2 start_pos q (vb ++ ['\r']) (by omega) hne
              · simp only [hn, hr, reduceIte] at hne ⊢
        · simp only [hb, reduceIte] at hne ⊢
          exact IH g st1 start_pos q (vb ++ [ch]) (by omega) hne

theorem num_frac_mono : ∀ f g st, f ≤ g → num_frac f st ≠ .fuelOut →
    num_frac g st = num_frac f st := by
  intro f g st hle hne
  simp only [num_frac] at hne ⊢
  rcases h1 : _la st 1 with ⟨la1, st1⟩
  simp only [h1] at hne ⊢
  by_cases hd : la1 = some '.'
  · simp only [hd, reduceIte] at hne ⊢
    rcases h2 : _next st1 with ⟨c, st2⟩
    simp only [h2] at hne ⊢
    have hdn : digits_run f st2 10 ≠ .fuelOut := by
      intro h; rw [h] at hne; exact hne rfl
    rw [digits_run_mono f g st2 10 hle hdn]
  · simp only [hd, reduceIte]

theorem num_exp_mono : ∀ f g st b, f ≤ g → num_exp f st b ≠ .fuelOut →
    num_exp g st b = num_exp f st b := by
  intro f g st b hle hne
  simp only [num_exp] at hne ⊢
  rcases h1 : _la st 1 with ⟨la1, st1⟩
  simp only [h1] at hne ⊢
  by_cases hd : la1 = some 'e' ∨ la1 = some 'E'
  · simp only [hd, reduceIte] at hne ⊢
    rcases h2 : _next st1 with ⟨c, st2⟩
    simp only [h2] at hne ⊢
    have hdn : digits_run f st2 10 ≠ .fuelOut := by
      intro h; rw [h] at hne; exact hne rfl
    rw [digits_run_mono f g st2 10 hle hdn]
  · simp only [hd, reduceIte]

theorem _do_num_body_mono : ∀ f g st start_pos ch, f ≤ g →
    _do_num_body f st start_pos ch ≠ .fuelOut →
    _do_num_body g st start_pos ch = _do_num_body f st start_pos ch := by
  intro f g st start_pos ch hle hne
  simp only [_do_num_body] at hne ⊢
  by_cases hdot : ch = '.'
  · simp only [hdot, reduceIte] at hne ⊢
    have hdn : digits_run f st 10 ≠ .fuelOut := by
      intro h; rw [h] at hne; exact hne rfl
    rw [digits_run_mono f g st 10 hle hdn]
  · simp only [hdot, reduceIte] at hne ⊢
    rcases hr : num_radix st ch with ⟨radix, st1⟩
    simp only [hr] at hne ⊢
    have hdn : digits_run f st1 radix ≠ .fuelOut := by
      intro h; rw [h] at hne; exact hne rfl
    rw [digits_run_mono f g st1 radix hle hdn]
    cases hd : digits_run f st1 radix with
    | fuelOut => exact absurd hd hdn
    | err e => rfl
    | ok u st2 =>
      rw [hd] at hne
      dsimp only at hne ⊢
      by_cases h10 : radix ≠ 10
      · simp only [if_pos h10]
      · simp only [if_neg h10] at hne ⊢
        have hfn : num_frac f st2 ≠ .fuelOut := by
          intro h; rw [h] at hne; exact hne rfl
        rw [num_frac_mono f g st2 hle hfn]
        cases hf : num_frac f st2 with
        | fuelOut => exact absurd hf hfn
        | err e => rfl
        | ok isF st3 =>
          rw [hf] at hne
          dsimp only at hne ⊢
          have hen : num_exp f st3 isF ≠ .fuelOut := by
            intro h; rw [h] at hne; exact hne rfl
          rw [num_exp_mono f g st3 isF hle hen]

theorem _do_num_mono : ∀ f g st start_pos ch, f ≤ g → _do_num f st start_pos ch ≠ .fuelOut →
    _do_num g st start_pos ch = _do_num f st start_pos ch := by
  intro f g st start_pos ch hle hne
  simp only [_do_num] at hne ⊢
  by_cases hs : ch = '-' ∨ ch = '+'
  · simp only [hs, reduceIte] at hne ⊢
    rcases h1 : _next (_start_buf st .NUM_LIT (some ch)) with ⟨ch2o, st1⟩
    simp only [h1] at hne ⊢
    rcases ch2o with _ | c
    · rfl
    · exact _do_num_body_mono f g st1 start_pos c hle hne
  · simp only [hs, reduceIte] at hne ⊢
    exact _do_num_body_mono f g _ start_pos ch hle hne

theorem _do_str_mono : ∀ f g st start_pos ch, f ≤ g → _do_str f st start_pos ch ≠ .fuelOut →
    _do_str g st start_pos ch = _do_str f st start_pos ch := by
  intro f g st start_pos ch hle hne
  simp only [_do_str] at hne ⊢
  exact _do_str_loop_mono f g _ start_pos ch [] hle hne

theorem _do_statement_tail_mono : ∀ f g st ch start_pos ett sl, f ≤ g →
    _do_statement_tail f st ch start_pos ett sl ≠ .fuelOut →
    _do_statement_tail g st ch start_pos ett sl = _do_statement_tail f st ch start_pos ett sl := by
  intro f g st ch start_pos ett sl hle hne
  simp only [_do_statement_tail] at hne ⊢
  by_cases h1 : ch = '(' ; · simp only [h1, reduceIte]
  by_cases h2 : ch = ')' ; · simp only [h1, h2, reduceIte]
  by_cases h3 : ch = '[' ; · simp only [h1, h2, h3, reduceIte]
  by_cases h4 : ch = ']' ; · simp only [h1, h2, h3, h4, reduceIte]
  by_cases h5 : ch = '{' ; · simp only [h1, h2, h3, h4, h5, reduceIte]
  by_cases h6 : ch = '}' ; · simp only [h1, h2, h3, h4, h5, h6, reduceIte]
  by_cases h7 : ch = ',' ; · simp only [h1, h2, h3, h4, h5, h6, h7, reduceIte]
  by_cases h8 : ch = '|' ; · simp only [h1, h2, h3, h4, h5, h6, h7, h8, reduceIte]
  by_cases h9 : ch = ':' ; · simp only [h1, h2, h3, h4, h5, h6, h7, h8, h9, reduceIte]
  simp only [h1, h2, h3, h4, h5, h6, h7, h8, h9, reduceIte] at hne ⊢
  by_cases h10 : ch = '.'
  · simp only [h10, reduceIte] at hne ⊢
    cases hd : is_digit (_la st 1).1 10 with
    | error e => rfl
    | ok b =>
      rw [hd] at hne
      dsimp only at hne ⊢
      cases b with
      | false => rfl
      | true =>
        try simp only [reduceIte] at hne ⊢
        exact _do_num_mono f g _ start_pos _ hle hne
  simp only [h10, reduceIte] at hne ⊢
  by_cases h11 : ch = '+' ∨ ch = '-'
  · simp only [h11, reduceIte] at hne ⊢
  simp only [h11, reduceIte] at hne ⊢
  by_cases h12 : ch = '*' ∨ ch = '/'
  · simp only [h12, reduceIte]
  simp only [h12, reduceIte] at hne ⊢
  by_cases h13 : ch = '>' ∨ ch = '<'
  · simp only [h13, reduceIte]
  simp only [h13, reduceIte] at hne ⊢
  by_cases h14 : ch = '='
  · simp only [h14, reduceIte]
  simp only [h14, reduceIte] at hne ⊢
  by_cases h15 : ch = '"' ∨ ch = '\''
  · simp only [h15, reduceIte] at hne ⊢
    exact _do_str_mono f g st start_pos ch hle hne
  simp only [h15, reduceIte] at hne ⊢
  cases hd : is_digit (some ch) 10 with
  | error e => rfl
  | ok b =>
    rw [hd] at hne
    dsimp only at hne ⊢
    cases b with
    | true =>
      try simp only [reduceIte] at hne ⊢
      exact _do_num_mono f g st start_pos _ hle hne
    | false =>
      simp only [Bool.false_eq_true, reduceIte] at hne ⊢
      by_cases hw : is_ws (some ch) = true
      · simp only [hw, reduceIte] at hne ⊢
        exact ws_run_mono f g _ start_pos ett sl hle hne
      · simp only [hw, Bool.false_eq_true, reduceIte] at hne ⊢
        by_cases ha : is_alpha (some ch) = true
        · simp only [ha, reduceIte] at hne ⊢
          exact name_run_mono f g _ start_pos hle hne
        · simp only [ha, Bool.false_eq_true, reduceIte]

theorem _do_statement_mono : ∀ f g st term ett sl, f ≤ g →
    _do_statement f st term ett sl ≠ .fuelOut →
    _do_statement g st term ett sl = _do_statement f st term ett sl := by
  intro f g st term ett sl hle hne
  simp only [_do_statement] at hne ⊢
  rcases h1 : _next st with ⟨cho, st1⟩
  simp only [h1] at hne ⊢
  rcases cho with _ | ch
  · rfl
  · rcases term with _ | ⟨_ | ⟨t0, trest⟩⟩
    · exact _do_statement_tail_mono f g st1 ch st.template_pos ett sl hle hne
    · exact _do_statement_tail_mono f g st1 ch st.template_pos ett sl hle hne
    · by_cases ht : ch = t0
      · simp only [ht, reduceIte] at hne ⊢
        rcases h2 : match_rest st1 trest 1 with ⟨matched, st2⟩
        simp only [h2] at hne ⊢
        cases matched with
        | true => try simp only [reduceIte] at hne ⊢
        | false =>
          try simp only [reduceIte] at hne ⊢
          exact _do_statement_tail_mono f g st2 t0 st.template_pos ett sl hle hne
      · simp only [ht, reduceIte] at hne ⊢
        exact _do_statement_tail_mono f g st1 ch st.template_pos ett sl hle hne

theorem _do_comment_loop_mono : ∀ f g st start_pos sl, f ≤ g →
    _do_comment_loop f st start_pos sl ≠ .fuelOut →
    _do_comment_loop g st start_pos sl = _do_comment_loop f st start_pos sl := by
  intro f
  induction f with
  | zero => intro g st start_pos sl _ hne; exact absurd rfl hne
  | succ f IH =>
    intro g st start_pos sl hle hne
    obtain ⟨g, rfl⟩ : ∃ gp, g = gp + 1 := ⟨g - 1, by omega⟩
    simp only [_do_comment_loop] at hne ⊢
    rcases h1 : _next st with ⟨cho, st1⟩
    simp only [h1] at hne ⊢
    rcases cho with _ | ch
    · rfl
    · cases sl with
      | true =>
        try simp only [reduceIte] at hne ⊢
        by_cases hr : ch = '\r'
        · simp only [hr, reduceIte] at hne ⊢
        · simp only [hr, reduceIte] at hne ⊢
          by_cases hn : ch = '\n'
          · simp only [hn, reduceIte] at hne ⊢
          · simp only [hn, reduceIte] at hne ⊢
            exact IH g st1 start_pos true (by omega) hne
      | false =>
        simp only [Bool.false_eq_true, reduceIte] at hne ⊢
        rcases hce : st1.comment_end with _ | ⟨_ | ⟨c0, crest⟩⟩
        · simp only [hce] at hne ⊢
        · simp only [hce] at hne ⊢
        · simp only [hce] at hne ⊢
          by_cases hc : ch = c0
          · simp only [hc, reduceIte] at hne ⊢
            rcases h2 : match_rest st1 crest 1 with ⟨matched, st2⟩
            simp only [h2] at hne ⊢
            cases matched with
            | true => try simp only [reduceIte] at hne ⊢
            | false =>
              try simp only [reduceIte] at hne ⊢
              exact IH g st2 start_pos false (by omega) hne
          · simp only [hc, reduceIte] at hne ⊢
            exact IH g st1 start_pos false (by omega) hne

theorem _do_comment_mono : ∀ f g st sl, f ≤ g → _do_comment f st sl ≠ .fuelOut →
    _do_comment g st sl = _do_comment f st sl := by
  intro f g st sl hle hne
  simp only [_do_comment] at hne ⊢
  exact _do_comment_loop_mono f g _ st.template_pos sl hle hne

theorem s0_loop_mono : ∀ f g st start_pos buf, f ≤ g → s0_loop f st start_pos buf ≠ .fuelOut →
    s0_loop g st start_pos buf = s0_loop f st start_pos buf := by
  intro f
  induction f with
  | zero => intro g st start_pos buf _ hne; exact absurd rfl hne
  | succ f IH =>
    intro g st start_pos buf hle hne
    obtain ⟨g, rfl⟩ : ∃ gp, g = gp + 1 := ⟨g - 1, by omega⟩
    simp only [s0_loop] at hne ⊢
    rcases h1 : _next st with ⟨cho, st1⟩
    simp only [h1] at hne ⊢
    rcases cho with _ | ch
    · rfl
    · rcases h2 : try_match st1 ch st1.block_start with ⟨m1, p1, stb⟩
      simp only [h2] at hne ⊢
      cases m1 with
      | true => try simp only [reduceIte] at hne ⊢
      | false =>
        try simp only [reduceIte] at hne ⊢
        rcases h3 : try_match stb ch stb.inline_start with ⟨m2, p2, stc⟩
        simp only [h3] at hne ⊢
        cases m2 with
        | true => try simp only [reduceIte] at hne ⊢
        | false =>
          try simp only [reduceIte] at hne ⊢
          rcases h4 : try_match stc ch stc.comment_start with ⟨m3, p3, std⟩
          simp only [h4] at hne ⊢
          cases m3 with
          | true => try simp only [reduceIte] at hne ⊢
          | false =>
            try simp only [reduceIte] at hne ⊢
            rcases h5 : try_match std ch std.line_statement_pfx with ⟨m4, p4, ste⟩
            simp only [h5] at hne ⊢
            cases m4 with
            | true => try simp only [reduceIte] at hne ⊢
            | false =>
              try simp only [reduceIte] at hne ⊢
              rcases h6 : try_match ste ch ste.line_comment_pfx with ⟨m5, p5, stf⟩
              simp only [h6] at hne ⊢
              cases m5 with
              | true => try simp only [reduceIte] at hne ⊢
              | false =>
                try simp only [reduceIte] at hne ⊢
                exact IH g stf start_pos (buf ++ [ch]) (by omega) hne

theorem _next_token_mono : ∀ f g st, f ≤ g → _next_token f st ≠ .fuelOut →
    _next_token g st = _next_token f st := by
  intro f
  induction f with
  | zero => intro g st _ hne; exact absurd rfl hne
  | succ f IH =>
    intro g st hle hne
    obtain ⟨g, rfl⟩ : ∃ gp, g = gp + 1 := ⟨g - 1, by omega⟩
    simp only [_next_token] at hne ⊢
    by_cases h0 : st.state = 0
    · simp only [h0, reduceIte] at hne ⊢
      exact s0_loop_mono f g st st.template_pos [] (by omega) hne
    · simp only [h0, reduceIte] at hne ⊢
      by_cases h135 : st.state = 1 ∨ st.state = 3 ∨ st.state = 5
      · simp only [h135, reduceIte] at hne ⊢
        rcases hp : (if st.state = 1 then (st.block_end, TokenType.STATEMENT_END)
            else if st.state = 3 then (none, TokenType.STATEMENT_END)
            else (st.inline_end, TokenType.INLINE_END)) with ⟨term, ett⟩
        simp only [hp] at hne ⊢
        have hdn : _do_statement f st term ett (st.state = 3) ≠ .fuelOut := by
          intro h; rw [h] at hne; exact hne rfl
        rw [_do_statement_mono f g st term ett (st.state = 3) (by omega) hdn]
      · simp only [h135, reduceIte] at hne ⊢
        by_cases h24 : st.state = 2 ∨ st.state = 4
        · simp only [h24, reduceIte] at hne ⊢
          have hdn : _do_comment f st (st.state = 4) ≠ .fuelOut := by
            intro h; rw [h] at hne; exact hne rfl
          rw [_do_comment_mono f g st (st.state = 4) (by omega) hdn]
        · simp only [h24, reduceIte] at hne ⊢
          by_cases h6 : st.state = 6
          · simp only [h6, reduceIte] at hne ⊢
          · simp only [h6, reduceIte] at hne ⊢
            exact IH g st (by omega) hne

theorem next_token_mono : ∀ f g st, f ≤ g → next_token f st ≠ .fuelOut →
    next_token g st = next_token f st := by
  intro f
  induction f with
  | zero => intro g st _ hne; exact absurd rfl hne
  | succ f IH =>
    intro g st hle hne
    obtain ⟨g, rfl⟩ : ∃ gp, g = gp + 1 := ⟨g - 1, by omega⟩
    simp only [next_token] at hne ⊢
    rcases hb : st.la_buf with _ | ⟨tok, rest⟩
    · simp only [hb] at hne ⊢
      have hdn : _next_token f st ≠ .fuelOut := by
        intro h; rw [h] at hne; exact hne rfl
      rw [_next_token_mono f g st (by omega) hdn]
      cases hd : _next_token f st with
      | fuelOut => exact absurd hd hdn
      | err e => rfl
      | ok tok st1 =>
        rw [hd] at hne
        dsimp only at hne ⊢
        by_cases hig : tok.tok_type ∈ st1.ignore_tokens
        · simp only [hig, reduceIte] at hne ⊢
          exact IH g st1 (by omega) hne
        · simp only [hig, reduceIte] at hne ⊢
    · simp only [hb]

theorem la_fill_mono : ∀ f g st n, f ≤ g → la_fill f st n ≠ .fuelOut →
    la_fill g st n = la_fill f st n := by
  intro f
  induction f with
  | zero => intro g st n _ hne; exact absurd rfl hne
  | succ f IH =>
    intro g st n hle hne
    obtain ⟨g, rfl⟩ : ∃ gp, g = gp + 1 := ⟨g - 1, by omega⟩
    simp only [la_fill] at hne ⊢
    have hdn : _next_token f st ≠ .fuelOut := by
      intro h; rw [h] at hne; exact hne rfl
    rw [_next_token_mono f g st (by omega) hdn]
    cases hd : _next_token f st with
    | fuelOut => exact absurd hd hdn
    | err e => rfl
    | ok tok st1 =>
      rw [hd] at hne
      dsimp only at hne ⊢
      by_cases hig : tok.tok_type ∈ st1.ignore_tokens
      · simp only [hig, reduceIte] at hne ⊢
        exact IH g st1 n (by omega) hne
      · simp only [hig, reduceIte] at hne ⊢
        by_cases hn : n ≤ 1
        · simp only [hn, reduceIte] at hne ⊢
        · simp only [hn, reduceIte] at hne ⊢
          exact IH g _ (n - 1) (by omega) hne

theorem la_mono : ∀ f g st k, f ≤ g → la f st k ≠ .fuelOut →
    la g st k = la f st k := by
  intro f g st k hle hne
  simp only [la] at hne ⊢
  rcases hb : st.la_buf.get? (k - 1) with _ | tok
  · simp only [hb] at hne ⊢
    exact la_fill_mono f g st (k - st.la_buf.length) hle hne
  · simp only [hb]

end JinjaStatementLexer

/-! ## Claim C1: unterminated block statement / inline expression -/

/-- The unterminated block statement of the claim (source text `{% if x`). -/
def c1_input : List Char := ['{', '%', ' ', 'i', 'f', ' ', 'x']

/-- An unterminated inline expression (source text `{{ x`). -/
def c1i_input : List Char := ['{', '{', ' ', 'x']

/-- The lexer configuration parsing `{% if x` reaches when its input is
exhausted mid-statement: cursor at the end, still in the block-statement
lexical state. -/
def c1_stuck : LexerState := { mkLexer c1_input with template_pos := 7, state := 1 }

/-- The analogous exhausted configuration for `{{ x` (inline state). -/
def c1i_stuck : LexerState := { mkLexer c1i_input with template_pos := 4, state := 5 }

/-- In the exhausted block-statement configuration, `next_token` returns the
EOF token and leaves the state untouched (for any fuel that lets it get
there), so the parser can never observe a statement terminator. -/
theorem c1_next_token_eof (n : Nat) :
    JinjaStatementLexer.next_token (n + 2) c1_stuck = .ok (mkTok .EOF "" 7) c1_stuck := rfl

/-- Inline analogue of `c1_next_token_eof`. -/
theorem c1i_next_token_eof (n : Nat) :
    JinjaStatementLexer.next_token (n + 2) c1i_stuck = .ok (mkTok .EOF "" 4) c1i_stuck := rfl

/-- `statement()`'s token loop diverges from the exhausted configuration:
every iteration appends the EOF token (which is neither the terminator nor a
whitespace-control candidate) and loops, for every fuel. -/
theorem c1_stmt_loop_stuck (n : Nat) :
    ∀ (acc : List Token) (r : Option Value),
      JinjaStatementParser.stmt_loop n c1_stuck true none (Value.str "if") acc r = .fuelOut := by
  induction n using Nat.strong_induction_on with
  | _ n IH =>
    intro acc r
    match n with
    | 0 => rfl
    | 1 => rfl
    | 2 => rfl
    | m + 3 =>
      exact IH (m + 2) (by omega) (acc ++ [mkTok .EOF "" 7]) r
/-- `inline()`'s token loop diverges from the exhausted inline
configuration, for every fuel. -/
theorem c1i_inline_loop_stuck (n : Nat) :
    ∀ (acc : List Token),
      JinjaStatementParser.inline_loop n c1i_stuck acc = .fuelOut := by
  induction n using Nat.strong_induction_on with
  | _ n IH =>
    intro acc
    match n with
    | 0 => rfl
    | 1 => rfl
    | 2 => rfl
    | m + 3 =>
      exact IH (m + 2) (by omega) (acc ++ [mkTok .EOF "" 4])

/-- For small fuels the whole parse is still fuel-bounded. -/
theorem c1_small : ∀ n, n < 12 → statement_parse n c1_input = .fuelOut := by decide

/-- Inline analogue of `c1_small`. -/
theorem c1i_small : ∀ n, n < 12 → statement_parse n c1i_input = .fuelOut := by decide

/-- The statement-start token and lexer state after the opening `{%` of
`c1_input` has been recognised and buffered by the parser's lookahead. -/
def c1_stA : LexerState :=
  { mkLexer c1_input with
    template_pos := 2
    state := 1
    la_buf := [mkTok .STATEMENT_START (String.mk ['{', '%']) 1] }

/-- The inline-start token and lexer state after the opening `{{` of
`c1i_input` has been recognised and buffered. -/
def c1i_stA : LexerState :=
  { mkLexer c1i_input with
    template_pos := 2
    state := 5
    la_buf := [mkTok .INLINE_START (String.mk ['{', '{']) 2] }

/-- `statement()` on the unterminated block statement exhausts any fuel. -/
theorem c1_stmt_fuelout (m : Nat) : JinjaStatementParser.statement (m + 11) c1_stA = .fuelOut :=
  c1_stmt_loop_stuck (m + 8)
    [{ tok_type := .NAME_OR_KEYWORD, text := "x", offset := 7, value := .str "x" },
     mkTok .EOF "" 7] none

/-- `inline()` on the unterminated inline expression exhausts any fuel. -/
theorem c1i_inline_fuelout (m : Nat) : JinjaStatementParser.inline (m + 11) c1i_stA = .fuelOut :=
  c1i_inline_loop_stuck (m + 8)
    [{ tok_type := .NAME_OR_KEYWORD, text := "x", offset := 4, value := .str "x" },
     mkTok .EOF "" 4]

/-- The parse of the unterminated block statement `{% if x` exhausts every
fuel bound: the Python original loops forever. -/
theorem c1_block_diverges : ∀ fuel, statement_parse fuel c1_input = .fuelOut := by
  intro fuel
  rcases Nat.lt_or_ge fuel 12 with h | h
  · exact c1_small fuel h
  · obtain ⟨m, rfl⟩ : ∃ m, fuel = m + 12 := ⟨fuel - 12, by omega⟩
    have hla : JinjaStatementLexer.la (m + 11) (mkLexer c1_input) 1 =
        .ok (mkTok .STATEMENT_START (String.mk ['{', '%']) 1) c1_stA :=
      (JinjaStatementLexer.la_mono 11 (m + 11) (mkLexer c1_input) 1 (by omega)
        (by decide)).trans (by decide)
    simp only [statement_parse, JinjaStatementParser.document]
    rw [show m + 12 = (m + 11) + 1 from rfl, JinjaStatementParser.document_loop.eq_def]
    dsimp only
    rw [hla]
    dsimp only
    rw [c1_stmt_fuelout]
    rfl

/-- The parse of the unterminated inline expression `{{ x` exhausts every
fuel bound: the Python original loops forever. -/
theorem c1i_inline_diverges : ∀ fuel, statement_parse fuel c1i_input = .fuelOut := by
  intro fuel
  rcases Nat.lt_or_ge fuel 12 with h | h
  · exact c1i_small fuel h
  · obtain ⟨m, rfl⟩ : ∃ m, fuel = m + 12 := ⟨fuel - 12, by omega⟩
    have hla : JinjaStatementLexer.la (m + 11) (mkLexer c1i_input) 1 =
        .ok (mkTok .INLINE_START (String.mk ['{', '{']) 2) c1i_stA :=
      (JinjaStatementLexer.la_mono 11 (m + 11) (mkLexer c1i_input) 1 (by omega)
        (by decide)).trans (by decide)
    simp only [statement_parse, JinjaStatementParser.document]
    rw [show m + 12 = (m + 11) + 1 from rfl, JinjaStatementParser.document_loop.eq_def]
    dsimp only
    rw [hla]
    dsimp only
    rw [c1i_inline_fuelout]
    rfl

/-- Claim C1 — the code, not the claim, is at fault.  The claim says a
source whose block statement or inline expression is never terminated
(`{% if x`, likewise `{{ x`) raises a fatal unexpected-token error and in
particular does not fail to terminate.  In fact the lexer keeps returning
EOF tokens in the statement/inline lexical state, `statement()`/`inline()`
keep appending them without any EOF check, and the parse neither raises nor
returns for *any* fuel bound: the Python original loops forever instead of
raising. -/
theorem unterminated_construct_never_terminates :
    (∀ fuel, statement_parse fuel c1_input = .fuelOut) ∧
    (∀ fuel, statement_parse fuel c1i_input = .fuelOut) :=
  ⟨c1_block_diverges, c1i_inline_diverges⟩

/-! ## Claim C2: string escape decoding -/

/-- The source text `{% if "a\tb\x41" %}` (the string literal of the claim,
inside a block statement). -/
def c2_input : List Char := "\x7b% if \"a\\tb\\x41\" %\x7d".data

/-- Claim C2 — the code, not the claim, is at fault.  Lexing the literal
`"a\tb\x41"` raises `TypeError` instead of decoding `\t` and `\x41`: the
escape dispatch reaches `elif ch ==  '\n' | '\r':`, and `'\n' | '\r'`
(evaluated before the comparison) applies `|` to two `str`s.  Only `\n` and
`\r` (written as `n`/`r`) are checked before that line, so every other
escape — including `t` and `x` — is unreachable. -/
theorem string_escape_raises_type_error :
    statement_parse 100 c2_input = .err (.typeError "unsupported operand types for |") := by
  decide

/-! ## Claim C4: whitespace classification -/

/-- Claim C4 counterexample: the claim says code point 5760 (Ogham space
mark) is whitespace and that no code point outside its listed set (which
omits 133) is; the code classifies 5760 as *not* whitespace and 133 (NEL)
as whitespace. -/
theorem is_ws_5760_and_133_refute_claim :
    is_ws (some (Char.ofNat 5760)) = false ∧ is_ws (some (Char.ofNat 133)) = true := by
  decide

/-- Claim C4, amended: a character is whitespace exactly when its code point
is 32, in 9–13, in 8192–8202, or one of 133, 160, 5670, 8232, 8233, 8239,
8287, 12288 — i.e. the source's literal tuple, which has 133 (NEL) in
addition to the claim's set and 5670 (apparently a typo) where the claim
says 5760. -/
theorem is_ws_characterisation (c : Char) :
    is_ws (some c) = true ↔
      (c.toNat = 32 ∨ (9 ≤ c.toNat ∧ c.toNat ≤ 13) ∨ c.toNat = 133 ∨ c.toNat = 160 ∨
        c.toNat = 5670 ∨ (8192 ≤ c.toNat ∧ c.toNat ≤ 8202) ∨ c.toNat = 8232 ∨
        c.toNat = 8233 ∨ c.toNat = 8239 ∨ c.toNat = 8287 ∨ c.toNat = 12288) := by
  simp only [is_ws, List.mem_cons, List.not_mem_nil, or_false, decide_eq_true_eq]
  omega

/-! ## Claims C5/C6: numeric literals -/

/-- `{% set a = 0b1 %}`: a binary literal. -/
def c5_bin_input : List Char := "\x7b% set a = 0b1 %\x7d".data

/-- `{% set a = 0x1F %}`: a hexadecimal literal. -/
def c5_hex_input : List Char := "\x7b% set a = 0x1F %\x7d".data

/-- `{% set a = 0o17 %}`: an octal literal. -/
def c5_oct_input : List Char := "\x7b% set a = 0o17 %\x7d".data

/-- Claim C5 — the code, not the claim, is at fault for the binary case.
Hex and octal literals decode as claimed (`0x1F` to the integer 31, `0o17`
to 15), but a `0b`/`0B` literal raises `ValueError`: the lexer selects
radix 2 and then calls its own `is_digit` with it, whose `match` only
accepts radices 10, 16 and 8 and raises `ValueError('Bad radix:', radix)`
for 2. -/
theorem binary_literal_raises_value_error :
    statement_parse 100 c5_bin_input = .err (.valueError "Bad radix") ∧
    docOf (statement_parse 100 c5_hex_input) = some ⟨[.statement none (.str "set")
      [{ tok_type := .NAME_OR_KEYWORD, text := "a", offset := 8, value := .str "a" },
       { tok_type := .EQ, text := "=", offset := 10, value := .str "=" },
       { tok_type := .NUM_LIT, text := "0x1F", offset := 12, value := .int 31 }] none]⟩ ∧
    docOf (statement_parse 100 c5_oct_input) = some ⟨[.statement none (.str "set")
      [{ tok_type := .NAME_OR_KEYWORD, text := "a", offset := 8, value := .str "a" },
       { tok_type := .EQ, text := "=", offset := 10, value := .str "=" },
       { tok_type := .NUM_LIT, text := "0o17", offset := 12, value := .int 15 }] none]⟩ := by
  refine ⟨by decide, by decide, by decide⟩

/-- `{% set a = +1 %}`: a signed numeric literal. -/
def c6_signed_input : List Char := "\x7b% set a = +1 %\x7d".data

/-- `{% set a = b + c %}`: `+` as a math operator. -/
def c6_math_input : List Char := "\x7b% set a = b + c %\x7d".data

/-- Claim C6 — the code, not the claim, is at fault for the signed-literal
case.  A `+`/`-` not followed by a digit does produce a math/splat-operator
token as claimed, but a `+`/`-` followed by a digit raises `NameError`: the
branch executes `return _do_num(start_pos, ch)` without the `self.`
qualifier and no module-level `_do_num` exists. -/
theorem signed_numeral_raises_name_error :
    statement_parse 100 c6_signed_input = .err (.nameError "_do_num") ∧
    docOf (statement_parse 100 c6_math_input) = some ⟨[.statement none (.str "set")
      [{ tok_type := .NAME_OR_KEYWORD, text := "a", offset := 8, value := .str "a" },
       { tok_type := .EQ, text := "=", offset := 10, value := .str "=" },
       { tok_type := .NAME_OR_KEYWORD, text := "b", offset := 12, value := .str "b" },
       { tok_type := .MATH_OP_OR_STAR_ARGS, text := "+", offset := 14, value := .str "+" },
       { tok_type := .NAME_OR_KEYWORD, text := "c", offset := 16, value := .str "c" }] none]⟩ := by
  refine ⟨by decide, by decide⟩

/-! ## Claim C7: whitespace-control extraction -/

/-- The source text `{%- set y = 1 -%}`. -/
def c7_input : List Char := "\x7b%- set y = 1 -%\x7d".data

/-- Claim C7 — confirmed.  `{%- set y = 1 -%}` parses to a document whose
single element is a Statement with left marker `-`, right marker `-`,
command `set`, and argument tokens exactly `y`, `=`, `1` (whitespace
filtered, markers excluded from the argument list). -/
theorem ws_control_extraction :
    docOf (statement_parse 100 c7_input) = some ⟨[.statement (some (.str "-")) (.str "set")
      [{ tok_type := .NAME_OR_KEYWORD, text := "y", offset := 9, value := .str "y" },
       { tok_type := .EQ, text := "=", offset := 11, value := .str "=" },
       { tok_type := .NUM_LIT, text := "1", offset := 13, value := .int 1 }]
      (some (.str "-"))]⟩ := by
  decide

/-! ## Claim C3: token text and offset -/

/-- The slice property the claim asserts of every token:
`source[offset : offset + len(text)] == text`. -/
def token_slice_ok (src : List Char) (t : Token) : Prop :=
  (src.drop t.offset).take t.text.data.length = t.text.data

instance (src : List Char) (t : Token) : Decidable (token_slice_ok src t) := by
  unfold token_slice_ok; infer_instance

/-- Claim C3 counterexample: lexing the source `{%`, the very first token —
a statement-start delimiter — has text `{%` but offset 1: the recorded
offset is the cursor position after the delimiter's first character, so the
slice starting at the offset is `%`, not `{%`. -/
theorem delimiter_token_offset_refutes_claim :
    tokOf (JinjaStatementLexer._next_token 9 (mkLexer ['{', '%'])) =
      some { tok_type := .STATEMENT_START, text := String.mk ['{', '%'], offset := 1,
             value := .str (String.mk ['{', '%']) } ∧
    ¬ token_slice_ok ['{', '%']
      { tok_type := .STATEMENT_START, text := String.mk ['{', '%'], offset := 1,
        value := .str (String.mk ['{', '%']) } := by
  exact ⟨by decide, by decide⟩

/-- Claim C3, amended.  Not every token records the position its text was
read from: (1) for any source beginning `{%`, the statement-start token has
text `{%` but offset 1 — one past the slice's true start, the position
right after the delimiter's first character; (2) a statement-end token's
text is the (empty) token buffer, not the `%}` slice it consumed, as the
raw token stream of `{%a%}` shows; tokens such as the name token lexed
right after the opening delimiter do satisfy the slice equation. -/
theorem token_text_offset_amended :
    (∀ (rest : List Char) (n : Nat),
      tokOf (JinjaStatementLexer._next_token (n + 2) (mkLexer ('{' :: '%' :: rest))) =
        some { tok_type := .STATEMENT_START, text := String.mk ['{', '%'], offset := 1,
               value := .str (String.mk ['{', '%']) }) ∧
    raw_toks 99 4 (mkLexer ['{', '%', 'a', '%', '\x7d']) =
      [{ tok_type := .STATEMENT_START, text := String.mk ['{', '%'], offset := 1,
         value := .str (String.mk ['{', '%']) },
       { tok_type := .NAME_OR_KEYWORD, text := "a", offset := 2, value := .str "a" },
       { tok_type := .STATEMENT_END, text := "", offset := 4, value := .str "" },
       { tok_type := .EOF, text := "", offset := 5, value := .str "" }] ∧
    token_slice_ok ['{', '%', 'a', '%', '\x7d']
      { tok_type := .NAME_OR_KEYWORD, text := "a", offset := 2, value := .str "a" } := by
  refine ⟨fun rest n => rfl, by decide, by decide⟩

/-! ## Claim C8: delimiter-free inputs -/

/-- No occurrence of a configured directive delimiter (for the default
configuration: no substring `{%`, `{{` or `{#`). -/
def noDelimB : List Char → Bool
  | [] => true
  | [_] => true
  | a :: b :: t =>
    if a = '{' ∧ (b = '%' ∨ b = '{' ∨ b = '#') then false else noDelimB (b :: t)

theorem noDelimB_tail {a : Char} {t : List Char} (h : noDelimB (a :: t) = true) :
    noDelimB t = true := by
  cases t with
  | nil => rfl
  | cons b t2 =>
    simp only [noDelimB] at h
    split at h
    · exact absurd h (by simp)
    · exact h

theorem noDelimB_head {b : Char} {t : List Char} (h : noDelimB ('{' :: b :: t) = true) :
    ¬(b = '%' ∨ b = '{' ∨ b = '#') := by
  intro hb
  simp only [noDelimB, true_and, hb, reduceIte] at h
  exact absurd h (by decide)

theorem getElem?_of_drop_nil {s : List Char} {p : Nat} (h : s.drop p = []) :
    s[p]? = none := by
  rw [List.getElem?_eq_none_iff]
  have h2 := congrArg List.length h
  simp only [List.length_drop, List.length_nil, List.length_cons] at h2
  omega

theorem getElem?_of_drop_cons {s : List Char} {p : Nat} {c : Char} {t : List Char}
    (h : s.drop p = c :: t) : s[p]? = some c := by
  have h0 : (s.drop p)[0]? = some c := by rw [h]; simp
  rwa [List.getElem?_drop, Nat.add_zero] at h0

theorem drop_succ_of_cons {s : List Char} {p : Nat} {c : Char} {t : List Char}
    (h : s.drop p = c :: t) : s.drop (p + 1) = t := by
  have h2 := List.drop_drop 1 p s
  rw [h] at h2
  simpa using h2.symm

/-- Scanning the template-text state over a delimiter-free remainder
accumulates every remaining character into one template-data token (or
yields the EOF token when nothing at all is pending). -/
theorem s0_scan (s : List Char) : ∀ (fuel p : Nat) (buf0 : List Char) (start : Nat),
    p ≤ s.length →
    noDelimB (s.drop p) = true →
    (s.drop p).length + 2 ≤ fuel →
    JinjaStatementLexer.s0_loop fuel { mkLexer s with template_pos := p } start buf0 =
      (if buf0 ++ s.drop p = [] then
        Res.ok (mkTok .EOF "" p) { mkLexer s with template_pos := s.length }
      else
        Res.ok (mkTok .TEMPLATE_DATA (String.mk (buf0 ++ s.drop p)) start)
          { mkLexer s with template_pos := s.length }) := by
  intro fuel
  induction fuel using Nat.strong_induction_on with
  | _ fuel IH =>
    intro p buf0 start hp hnd hfuel
    obtain ⟨f, rfl⟩ : ∃ f, fuel = f + 1 := ⟨fuel - 1, by omega⟩
    rcases hd : s.drop p with _ | ⟨c, rem⟩
    · -- nothing left: the EOF sentinel ends the scan immediately
      have hpl : p = s.length := by
        have h2 := congrArg List.length hd
        simp only [List.length_drop, List.length_nil, List.length_cons] at h2
        omega
      cases buf0 with
      | nil =>
        simp [JinjaStatementLexer.s0_loop, JinjaStatementLexer._next,
          JinjaStatementLexer._do_next, mkLexer, getElem?_of_drop_nil hd, hpl]
      | cons b bs =>
        simp [JinjaStatementLexer.s0_loop, JinjaStatementLexer._next,
          JinjaStatementLexer._do_next, mkLexer, getElem?_of_drop_nil hd, hpl]
    · rw [hd] at hnd hfuel
      simp only [List.length_cons, List.length_nil] at hfuel
      have hg := getElem?_of_drop_cons hd
      have hd1 := drop_succ_of_cons hd
      by_cases hc : c = '{'
      · subst hc
        rcases hrem : rem with _ | ⟨c2, rem2⟩
        · -- '{' is the last character: the probes buffer the EOF sentinel,
          -- the next iteration pops it and flushes the pending literal
          subst hrem
          simp only [List.length_nil] at hfuel
          obtain ⟨f2, rfl⟩ : ∃ f2, f = f2 + 1 := ⟨f - 1, by omega⟩
          have hg1 : s[p + 1]? = none := getElem?_of_drop_nil hd1
          have hpl : p + 1 = s.length := by
            have h2 := congrArg List.length hd
            simp only [List.length_drop, List.length_nil, List.length_cons] at h2
            omega
          simp [JinjaStatementLexer.s0_loop, JinjaStatementLexer._next,
            JinjaStatementLexer._do_next, JinjaStatementLexer.try_match,
            JinjaStatementLexer.match_rest, JinjaStatementLexer._la,
            JinjaStatementLexer._la_fill, mkLexer, hg, hg1, hpl]
          cases buf0 <;> simp
        · -- '{' followed by a non-delimiter character: both are consumed and
          -- accumulated across two iterations
          subst hrem
          simp only [List.length_cons] at hfuel
          have hnb := noDelimB_head hnd
          have hg1 : s[p + 1]? = some c2 := getElem?_of_drop_cons hd1
          have hd2 : s.drop (p + 2) = rem2 := drop_succ_of_cons hd1
          obtain ⟨f2, rfl⟩ : ∃ f2, f = f2 + 1 := ⟨f - 1, by omega⟩
          have hc2p : ¬ c2 = '%' := fun h => hnb (Or.inl h)
          have hc2b : ¬ c2 = '{' := fun h => hnb (Or.inr (Or.inl h))
          have hc2c : ¬ c2 = '#' := fun h => hnb (Or.inr (Or.inr h))
          have hlen2 : p + 2 ≤ s.length := by
            have h2 := congrArg List.length hd
            simp only [List.length_drop, List.length_nil, List.length_cons] at h2
            omega
          have hstep := IH f2 (by omega) (p + 2) (buf0 ++ ['{', c2]) start hlen2
            (by rw [hd2]; exact noDelimB_tail (noDelimB_tail hnd))
            (by rw [hd2]; omega)
          rw [hd2] at hstep
          simp only [mkLexer] at hstep
          simp [JinjaStatementLexer.s0_loop, JinjaStatementLexer._next,
            JinjaStatementLexer._do_next, JinjaStatementLexer.try_match,
            JinjaStatementLexer.match_rest, JinjaStatementLexer._la,
            JinjaStatementLexer._la_fill, mkLexer, hg, hg1, hc2p, hc2b, hc2c]
          rw [show p + 1 + 1 = p + 2 from rfl, hstep]
          simp [List.append_eq_nil]
      · -- an ordinary character: accumulate it and continue
        have hlen1 : p + 1 ≤ s.length := by
          have h2 := congrArg List.length hd
          simp only [List.length_drop, List.length_nil, List.length_cons] at h2
          omega
        have hstep := IH f (by omega) (p + 1) (buf0 ++ [c]) start hlen1
          (by rw [hd1]; exact noDelimB_tail hnd)
          (by rw [hd1]; omega)
        rw [hd1] at hstep
        simp only [mkLexer] at hstep
        simp [JinjaStatementLexer.s0_loop, JinjaStatementLexer._next,
          JinjaStatementLexer._do_next, JinjaStatementLexer.try_match,
          JinjaStatementLexer.match_rest, JinjaStatementLexer._la,
          JinjaStatementLexer._la_fill, mkLexer, hg, hc]
        rw [hstep]
        simp [List.append_eq_nil]

/-- The token constructor stores the given type verbatim. -/
theorem mkTok_tok_type (t : TokenType) (text : String) (offset : Nat) :
    (mkTok t text offset).tok_type = t := rfl

/-- Claim C8, amended (the claim fails only for the empty input): parsing a
*nonempty* delimiter-free input yields exactly one text element holding the
input verbatim. -/
theorem delimiter_free_parse (s : List Char) (hne : s ≠ []) (hnd : noDelimB s = true) :
    docOf (statement_parse (s.length + 8) s) = some ⟨[.text (.str (String.mk s))]⟩ := by
  have hscan1 := s0_scan s (s.length + 5) 0 [] 0 (Nat.zero_le _)
    (by simpa using hnd) (by simp)
  simp only [List.drop_zero, List.nil_append, hne, mkLexer, reduceIte] at hscan1
  have hscan2 := s0_scan s (s.length + 4) s.length [] s.length le_rfl
    (by simp [noDelimB]) (by simp)
  simp only [List.drop_length, List.append_nil, mkLexer, reduceIte] at hscan2
  have e1 : JinjaStatementLexer._next_token (s.length + 6) (mkLexer s) =
      .ok (mkTok .TEMPLATE_DATA (String.mk s) 0)
        { mkLexer s with template_pos := s.length } := by
    rw [show s.length + 6 = (s.length + 5) + 1 from rfl, JinjaStatementLexer._next_token.eq_def]
    dsimp only [mkLexer]
    simp only [reduceIte]
    exact hscan1
  have e1L := e1
  simp only [mkLexer] at e1L
  have e5 : JinjaStatementLexer._next_token (s.length + 5)
      { mkLexer s with template_pos := s.length } =
      .ok (mkTok .EOF "" s.length) { mkLexer s with template_pos := s.length } := by
    rw [show s.length + 5 = (s.length + 4) + 1 from rfl, JinjaStatementLexer._next_token.eq_def]
    dsimp only [mkLexer]
    simp only [reduceIte]
    exact hscan2
  have e5L := e5
  simp only [mkLexer] at e5L
  have e2 : JinjaStatementLexer.la (s.length + 7) (mkLexer s) 1 =
      .ok (mkTok .TEMPLATE_DATA (String.mk s) 0)
        { mkLexer s with
          template_pos := s.length
          la_buf := [mkTok .TEMPLATE_DATA (String.mk s) 0] } := by
    rw [JinjaStatementLexer.la.eq_def]
    dsimp only [mkLexer]
    rw [show s.length + 7 = (s.length + 6) + 1 from rfl, JinjaStatementLexer.la_fill.eq_def]
    dsimp only
    rw [e1L]
    simp [mkTok]
  have e3 : JinjaStatementLexer.next_token (s.length + 7)
      { mkLexer s with
        template_pos := s.length
        la_buf := [mkTok .TEMPLATE_DATA (String.mk s) 0] } =
      .ok (mkTok .TEMPLATE_DATA (String.mk s) 0)
        { mkLexer s with template_pos := s.length } := by
    rw [show s.length + 7 = (s.length + 6) + 1 from rfl, JinjaStatementLexer.next_token.eq_def]
    rfl
  have e4 : JinjaStatementLexer.la (s.length + 6)
      { mkLexer s with template_pos := s.length } 1 =
      .ok (mkTok .EOF "" s.length)
        { mkLexer s with
          template_pos := s.length
          la_buf := [mkTok .EOF "" s.length] } := by
    rw [JinjaStatementLexer.la.eq_def]
    dsimp only [mkLexer]
    rw [show s.length + 6 = (s.length + 5) + 1 from rfl, JinjaStatementLexer.la_fill.eq_def]
    dsimp only
    rw [e5L]
    simp [mkTok]
  simp only [statement_parse, JinjaStatementParser.document]
  rw [show s.length + 8 = (s.length + 7) + 1 from rfl, JinjaStatementParser.document_loop.eq_def]
  dsimp only
  rw [e2]
  dsimp only
  simp only [mkTok_tok_type]
  try dsimp only
  rw [e3]
  try dsimp only
  rw [show s.length + 7 = (s.length + 6) + 1 from rfl, JinjaStatementParser.document_loop.eq_def]
  try dsimp only
  rw [e4]
  try dsimp only
  simp only [mkTok_tok_type]
  rfl

/-- Counterexample to claim C8 as stated: the empty input contains no
delimiter, yet the parse returns a document with *zero* elements, not one
text element whose content equals the input (the scanning loop reaches end
of input with an empty accumulation buffer — `if self.buf` is false for an
empty list — and emits the EOF token without any TEMPLATE_DATA token). -/
theorem empty_input_refutes_round_trip :
    noDelimB ([] : List Char) = true ∧
    docOf (statement_parse 8 ([] : List Char)) = some ⟨[]⟩ ∧
    docOf (statement_parse 8 ([] : List Char)) ≠ some ⟨[.text (.str "")]⟩ := by
  refine ⟨rfl, by decide, by decide⟩

/-- Witness for `delimiter_free_parse` at the concrete input "hello". -/
theorem delimiter_free_parse_witness :
    "hello".data ≠ [] ∧ noDelimB "hello".data = true ∧
    docOf (statement_parse ("hello".data.length + 8) "hello".data) =
      some ⟨[.text (.str (String.mk "hello".data))]⟩ :=
  ⟨by decide, by decide, delimiter_free_parse "hello".data (by decide) (by decide)⟩
/-! ## Token kinds produced by the statement-state sub-lexers (for C10) -/

namespace JinjaStatementLexer

/-- Every successful `_do_num` body result is a numeric-literal token. -/
theorem _do_num_body_kind (fuel : Nat) (st : LexerState) (p : Nat) (ch : Char)
    (t : Token) (st2 : LexerState)
    (heq : _do_num_body fuel st p ch = .ok t st2) : t.tok_type = .NUM_LIT := by
  simp only [_do_num_body] at heq
  split at heq
  · split at heq
    · exact Res.noConfusion heq
    · exact Res.noConfusion heq
    · split at heq
      · exact Res.noConfusion heq
      · cases heq; rfl
  · split at heq
    · exact Res.noConfusion heq
    · exact Res.noConfusion heq
    · split at heq
      · split at heq
        · exact Res.noConfusion heq
        · cases heq; rfl
      · split at heq
        · exact Res.noConfusion heq
        · exact Res.noConfusion heq
        · split at heq
          · exact Res.noConfusion heq
          · exact Res.noConfusion heq
          · split at heq
            · exact Res.noConfusion heq
            · cases heq; rfl

/-- `_do_num` succeeds only with a numeric-literal token (or the EOF token
when input ends right after a sign). -/
theorem _do_num_kind (fuel : Nat) (st : LexerState) (p : Nat) (ch : Char)
    (t : Token) (st2 : LexerState)
    (heq : _do_num fuel st p ch = .ok t st2) :
    t.tok_type = .NUM_LIT ∨ t.tok_type = .EOF := by
  simp only [_do_num] at heq
  split at heq
  · split at heq
    · cases heq; exact Or.inr rfl
    · exact Or.inl (_do_num_body_kind _ _ _ _ _ _ heq)
  · exact Or.inl (_do_num_body_kind _ _ _ _ _ _ heq)

/-- The string scanner succeeds only with a string-literal token (or the EOF
token at end of input). -/
theorem _do_str_loop_kind : ∀ (fuel : Nat) (st : LexerState) (p : Nat) (q : Char)
    (vb : List Char) (t : Token) (st2 : LexerState),
    _do_str_loop fuel st p q vb = .ok t st2 →
    t.tok_type = .STR_LIT ∨ t.tok_type = .EOF := by
  intro fuel
  induction fuel with
  | zero => intro st p q vb t st2 heq; exact Res.noConfusion heq
  | succ f IH =>
    intro st p q vb t st2 heq
    simp only [_do_str_loop] at heq
    split at heq
    · cases heq; exact Or.inr rfl
    · split at heq
      · cases heq; exact Or.inl rfl
      · split at heq
        · split at heq
          · cases heq; exact Or.inr rfl
          · split at heq
            · exact IH _ _ _ _ _ _ heq
            · split at heq
              · exact IH _ _ _ _ _ _ heq
              · exact Res.noConfusion heq
        · exact IH _ _ _ _ _ _ heq

/-- `_do_str` succeeds only with a string-literal or EOF token. -/
theorem _do_str_kind (fuel : Nat) (st : LexerState) (p : Nat) (ch : Char)
    (t : Token) (st2 : LexerState)
    (heq : _do_str fuel st p ch = .ok t st2) :
    t.tok_type = .STR_LIT ∨ t.tok_type = .EOF :=
  _do_str_loop_kind fuel (_start_buf st .STR_LIT (some ch)) p ch [] t st2 heq

/-- The whitespace run succeeds only with a whitespace token or (in
single-line mode) the configured end token. -/
theorem ws_run_kind : ∀ (fuel : Nat) (st : LexerState) (p : Nat) (ett : TokenType)
    (sl : Bool) (t : Token) (st2 : LexerState),
    ws_run fuel st p ett sl = .ok t st2 → t.tok_type = .WS ∨ t.tok_type = ett := by
  intro fuel
  induction fuel with
  | zero => intro st p ett sl t st2 heq; exact Res.noConfusion heq
  | succ f IH =>
    intro st p ett sl t st2 heq
    simp only [ws_run] at heq
    split at heq
    · exact IH _ _ _ _ _ _ heq
    · split at heq
      · cases heq; exact Or.inr rfl
      · cases heq; exact Or.inl rfl

/-- The identifier run succeeds only with a name-or-keyword token. -/
theorem name_run_kind : ∀ (fuel : Nat) (st : LexerState) (p : Nat)
    (t : Token) (st2 : LexerState),
    name_run fuel st p = .ok t st2 → t.tok_type = .NAME_OR_KEYWORD := by
  intro fuel
  induction fuel with
  | zero => intro st p t st2 heq; exact Res.noConfusion heq
  | succ f IH =>
    intro st p t st2 heq
    simp only [name_run] at heq
    split at heq
    · exact IH _ _ _ _ heq
    · cases heq; rfl

/-- `>`/`<` with a buffered `=` lookahead: a two-character compare token. -/
theorem tail_gt_lt_compare (st : LexerState) (tl : List (Option Char)) (fuel p : Nat)
    (ett : TokenType) (sl : Bool) (ch : Char)
    (hcb : st.ch_buf = some '=' :: tl) (hbuf : st.buf = none)
    (hch : ch = '>' ∨ ch = '<') :
    _do_statement_tail fuel st ch p ett sl =
      .ok (mkTok .COMPARE_OP (String.mk [ch, '=']) p) { st with ch_buf := tl } := by
  rcases hch with rfl | rfl <;>
    simp [_do_statement_tail, _la, _next, _do_next, hcb, hbuf]

/-- `>`/`<` with any other lookahead: a one-character math-operator token. -/
theorem tail_gt_lt_math (st : LexerState) (la1 : Option Char) (tl : List (Option Char))
    (fuel p : Nat) (ett : TokenType) (sl : Bool) (ch : Char)
    (hcb : st.ch_buf = la1 :: tl) (hne : la1 ≠ some '=') (hch : ch = '>' ∨ ch = '<') :
    _do_statement_tail fuel st ch p ett sl =
      .ok (mkTok .MATH_OP_OR_STAR_ARGS (String.mk [ch]) p) st := by
  rcases hch with rfl | rfl <;>
    simp [_do_statement_tail, _la, hcb, hne]

/-- `=` with a buffered `=` lookahead: the `==` compare token. -/
theorem tail_eq_eq_compare (st : LexerState) (tl : List (Option Char)) (fuel p : Nat)
    (ett : TokenType) (sl : Bool)
    (hcb : st.ch_buf = some '=' :: tl) (hbuf : st.buf = none) :
    _do_statement_tail fuel st '=' p ett sl =
      .ok (mkTok .COMPARE_OP "==" p) { st with ch_buf := tl } := by
  simp [_do_statement_tail, _la, _next, _do_next, hcb, hbuf]

/-- a lone `=`: the equals token. -/
theorem tail_eq_single (st : LexerState) (la1 : Option Char) (tl : List (Option Char))
    (fuel p : Nat) (ett : TokenType) (sl : Bool)
    (hcb : st.ch_buf = la1 :: tl) (hne : la1 ≠ some '=') :
    _do_statement_tail fuel st '=' p ett sl = .ok (mkTok .EQ "=" p) st := by
  simp [_do_statement_tail, _la, hcb, hne]

/-- Conversely, a compare-operator token can only come out of the `>`/`<`/`=`
branches, and only when the next lookahead character is `=`. -/
theorem tail_compare_op_only (fuel : Nat) (st : LexerState) (ch : Char) (p : Nat)
    (ett : TokenType) (sl : Bool) (t : Token) (st2 : LexerState)
    (het : ett ≠ .COMPARE_OP)
    (heq : _do_statement_tail fuel st ch p ett sl = .ok t st2)
    (htk : t.tok_type = .COMPARE_OP) :
    (ch = '>' ∨ ch = '<' ∨ ch = '=') ∧ (_la st 1).1 = some '=' := by
  simp only [_do_statement_tail] at heq
  by_cases h1 : ch = '('
  · simp only [h1, reduceIte] at heq; cases heq; simp [mkTok] at htk
  simp only [h1, reduceIte] at heq
  by_cases h2 : ch = ')'
  · simp only [h2, reduceIte] at heq; cases heq; simp [mkTok] at htk
  simp only [h2, reduceIte] at heq
  by_cases h3 : ch = '['
  · simp only [h3, reduceIte] at heq; cases heq; simp [mkTok] at htk
  simp only [h3, reduceIte] at heq
  by_cases h4 : ch = ']'
  · simp only [h4, reduceIte] at heq; cases heq; simp [mkTok] at htk
  simp only [h4, reduceIte] at heq
  by_cases h5 : ch = '{'
  · simp only [h5, reduceIte] at heq; cases heq; simp [mkTok] at htk
  simp only [h5, reduceIte] at heq
  by_cases h6 : ch = '}'
  · simp only [h6, reduceIte] at heq; cases heq; simp [mkTok] at htk
  simp only [h6, reduceIte] at heq
  by_cases h7 : ch = ','
  · simp only [h7, reduceIte] at heq; cases heq; simp [mkTok] at htk
  simp only [h7, reduceIte] at heq
  by_cases h8 : ch = '|'
  · simp only [h8, reduceIte] at heq; cases heq; simp [mkTok] at htk
  simp only [h8, reduceIte] at heq
  by_cases h9 : ch = ':'
  · simp only [h9, reduceIte] at heq; cases heq; simp [mkTok] at htk
  simp only [h9, reduceIte] at heq
  by_cases h10 : ch = '.'
  · simp only [h10, reduceIte] at heq
    cases hd : is_digit (_la st 1).1 10 with
    | error e => rw [hd] at heq; dsimp only at heq; exact Res.noConfusion heq
    | ok b =>
      rw [hd] at heq
      dsimp only at heq
      cases b with
      | false =>
        simp only [Bool.false_eq_true, reduceIte] at heq
        cases heq; simp [mkTok] at htk
      | true =>
        try simp only [reduceIte] at heq
        rcases _do_num_kind _ _ _ _ _ _ heq with hk | hk <;> (rw [htk] at hk; cases hk)
  simp only [h10, reduceIte] at heq
  by_cases h11 : ch = '+' ∨ ch = '-'
  · simp only [h11, reduceIte] at heq
    cases hd : is_digit (_la st 1).1 10 with
    | error e => rw [hd] at heq; dsimp only at heq; exact Res.noConfusion heq
    | ok b =>
      rw [hd] at heq
      dsimp only at heq
      cases b with
      | false =>
        simp only [Bool.false_eq_true, reduceIte] at heq
        cases heq; simp [mkTok] at htk
      | true =>
        try simp only [reduceIte] at heq
        exact Res.noConfusion heq
  simp only [h11, reduceIte] at heq
  by_cases h12 : ch = '*' ∨ ch = '/'
  · simp only [h12, reduceIte] at heq
    split at heq
    · split at heq
      · cases heq; simp [mkTok] at htk
      · cases heq; simp [mkTok] at htk
    · cases heq; simp [mkTok] at htk
  simp only [h12, reduceIte] at heq
  by_cases h13 : ch = '>' ∨ ch = '<'
  · refine ⟨?_, ?_⟩
    · rcases h13 with h | h
      · exact Or.inl h
      · exact Or.inr (Or.inl h)
    · by_cases he : (_la st 1).1 = some '='
      · exact he
      · simp only [h13, he, reduceIte] at heq
        cases heq; simp [mkTok] at htk
  simp only [h13, reduceIte] at heq
  by_cases h14 : ch = '='
  · refine ⟨Or.inr (Or.inr h14), ?_⟩
    by_cases he : (_la st 1).1 = some '='
    · exact he
    · simp only [h14, he, reduceIte] at heq
      cases heq; simp [mkTok] at htk
  simp only [h14, reduceIte] at heq
  by_cases h15 : ch = '"' ∨ ch = '\''
  · simp only [h15, reduceIte] at heq
    rcases _do_str_kind _ _ _ _ _ _ heq with hk | hk <;> (rw [htk] at hk; cases hk)
  simp only [h15, reduceIte] at heq
  cases hd : is_digit (some ch) 10 with
  | error e => rw [hd] at heq; dsimp only at heq; exact Res.noConfusion heq
  | ok b =>
    rw [hd] at heq
    dsimp only at heq
    cases b with
    | true =>
      try simp only [reduceIte] at heq
      rcases _do_num_kind _ _ _ _ _ _ heq with hk | hk <;> (rw [htk] at hk; cases hk)
    | false =>
      simp only [Bool.false_eq_true, reduceIte] at heq
      by_cases hw : is_ws (some ch) = true
      · simp only [hw, reduceIte] at heq
        rcases ws_run_kind _ _ _ _ _ _ _ heq with hk | hk
        · rw [htk] at hk; cases hk
        · rw [htk] at hk; exact absurd hk.symm het
      · simp only [hw, Bool.false_eq_true, reduceIte] at heq
        by_cases ha : is_alpha (some ch) = true
        · simp only [ha, reduceIte] at heq
          have hk := name_run_kind _ _ _ _ _ heq
          rw [htk] at hk; cases hk
        · simp only [ha, Bool.false_eq_true, reduceIte] at heq
          exact Res.noConfusion heq

end JinjaStatementLexer

/-- Claim C10: in the statement/inline lexicon, a `>` or `<` whose next
lookahead character is not `=` produces a math-operator-or-star token, not a
compare-operator token; with a following `=` the two-character sequences
`>=`/`<=` (and `==` from `=`) produce compare-operator tokens, a lone `=`
produces the equals token, and no other branch of the lexicon can produce a
compare-operator token (so `>=`, `<=`, `==` are the only sources, provided
the configured terminator token kind is not itself compare-operator). -/
theorem compare_op_tokenisation :
    (∀ (st : LexerState) (tl : List (Option Char)) (fuel p : Nat) (ett : TokenType)
       (sl : Bool) (ch : Char),
       st.ch_buf = some '=' :: tl → st.buf = none → ch = '>' ∨ ch = '<' →
       JinjaStatementLexer._do_statement_tail fuel st ch p ett sl =
         .ok (mkTok .COMPARE_OP (String.mk [ch, '=']) p) { st with ch_buf := tl }) ∧
    (∀ (st : LexerState) (la1 : Option Char) (tl : List (Option Char))
       (fuel p : Nat) (ett : TokenType) (sl : Bool) (ch : Char),
       st.ch_buf = la1 :: tl → la1 ≠ some '=' → ch = '>' ∨ ch = '<' →
       JinjaStatementLexer._do_statement_tail fuel st ch p ett sl =
         .ok (mkTok .MATH_OP_OR_STAR_ARGS (String.mk [ch]) p) st) ∧
    (∀ (st : LexerState) (tl : List (Option Char)) (fuel p : Nat) (ett : TokenType)
       (sl : Bool),
       st.ch_buf = some '=' :: tl → st.buf = none →
       JinjaStatementLexer._do_statement_tail fuel st '=' p ett sl =
         .ok (mkTok .COMPARE_OP "==" p) { st with ch_buf := tl }) ∧
    (∀ (st : LexerState) (la1 : Option Char) (tl : List (Option Char))
       (fuel p : Nat) (ett : TokenType) (sl : Bool),
       st.ch_buf = la1 :: tl → la1 ≠ some '=' →
       JinjaStatementLexer._do_statement_tail fuel st '=' p ett sl =
         .ok (mkTok .EQ "=" p) st) ∧
    (∀ (fuel : Nat) (st : LexerState) (ch : Char) (p : Nat) (ett : TokenType)
       (sl : Bool) (t : Token) (st2 : LexerState),
       ett ≠ .COMPARE_OP →
       JinjaStatementLexer._do_statement_tail fuel st ch p ett sl = .ok t st2 →
       t.tok_type = .COMPARE_OP →
       (ch = '>' ∨ ch = '<' ∨ ch = '=') ∧
         (JinjaStatementLexer._la st 1).1 = some '=') :=
  ⟨JinjaStatementLexer.tail_gt_lt_compare, JinjaStatementLexer.tail_gt_lt_math,
   JinjaStatementLexer.tail_eq_eq_compare, JinjaStatementLexer.tail_eq_single,
   JinjaStatementLexer.tail_compare_op_only⟩

/-- Witness for `compare_op_tokenisation`: each part applied at a concrete
lexer state whose lookahead buffer holds `=` (resp. `b`). -/
theorem compare_op_tokenisation_witness :
    (JinjaStatementLexer._do_statement_tail 3
        { mkLexer ['a'] with ch_buf := [some '='] } '>' 0 .STATEMENT_END false =
      .ok (mkTok .COMPARE_OP (String.mk ['>', '=']) 0)
        { { mkLexer ['a'] with ch_buf := [some '='] } with ch_buf := [] }) ∧
    (JinjaStatementLexer._do_statement_tail 3
        { mkLexer ['a'] with ch_buf := [some 'b'] } '<' 0 .STATEMENT_END false =
      .ok (mkTok .MATH_OP_OR_STAR_ARGS (String.mk ['<']) 0)
        { mkLexer ['a'] with ch_buf := [some 'b'] }) ∧
    (JinjaStatementLexer._do_statement_tail 3
        { mkLexer ['a'] with ch_buf := [some '='] } '=' 0 .STATEMENT_END false =
      .ok (mkTok .COMPARE_OP "==" 0)
        { { mkLexer ['a'] with ch_buf := [some '='] } with ch_buf := [] }) ∧
    (JinjaStatementLexer._do_statement_tail 3
        { mkLexer ['a'] with ch_buf := [some 'b'] } '=' 0 .STATEMENT_END false =
      .ok (mkTok .EQ "=" 0) { mkLexer ['a'] with ch_buf := [some 'b'] }) ∧
    (('>' = '>' ∨ '>' = '<' ∨ '>' = '=') ∧
      (JinjaStatementLexer._la { mkLexer ['a'] with ch_buf := [some '='] } 1).1 =
        some '=') :=
  ⟨compare_op_tokenisation.1 _ [] 3 0 .STATEMENT_END false '>' rfl rfl (Or.inl rfl),
   compare_op_tokenisation.2.1 _ (some 'b') [] 3 0 .STATEMENT_END false '<' rfl
     (by decide) (Or.inr rfl),
   compare_op_tokenisation.2.2.1 _ [] 3 0 .STATEMENT_END false rfl rfl,
   compare_op_tokenisation.2.2.2.1 _ (some 'b') [] 3 0 .STATEMENT_END false rfl
     (by decide),
   compare_op_tokenisation.2.2.2.2 3 _ '>' 0 .STATEMENT_END false
     (mkTok .COMPARE_OP (String.mk ['>', '=']) 0)
     { { mkLexer ['a'] with ch_buf := [some '='] } with ch_buf := [] }
     (by decide) (by decide) rfl⟩

/-! ## The sub-lexers never touch the token lookahead buffer (for C9)

Only `next_token` (pop) and `la_fill` (append) modify `la_buf`, and nothing
at all modifies `ignore_tokens`; the re-queueing branch of `_do_comment`
is dead because `_clear_buf` has just reset the buffer it tests. -/

namespace JinjaStatementLexer

/-- `b` carries the same token lookahead buffer and ignore set as `a`. -/
def keeps (a b : LexerState) : Prop :=
  b.la_buf = a.la_buf ∧ b.ignore_tokens = a.ignore_tokens

theorem keeps_rfl (a : LexerState) : keeps a a := ⟨rfl, rfl⟩

theorem keeps_trans {a b c : LexerState} (h1 : keeps a b) (h2 : keeps b c) : keeps a c :=
  ⟨h2.1.trans h1.1, h2.2.trans h1.2⟩

theorem _do_next_keeps (st : LexerState) : keeps st (_do_next st).2 := by
  simp only [_do_next]
  split
  · exact ⟨rfl, rfl⟩
  · split
    · exact ⟨rfl, rfl⟩
    · exact ⟨rfl, rfl⟩

theorem _next_keeps (st : LexerState) : keeps st (_next st).2 := by
  simp only [_next]
  split <;> exact _do_next_keeps st

theorem _la_fill_keeps : ∀ (n : Nat) (st : LexerState), keeps st (_la_fill n st).2 := by
  intro n
  induction n with
  | zero => intro st; exact keeps_rfl st
  | succ m IH =>
    intro st
    cases m with
    | zero =>
      simp only [_la_fill]
      exact _do_next_keeps st
    | succ k =>
      simp only [_la_fill]
      exact keeps_trans (_do_next_keeps st) (IH _)

theorem _la_keeps (st : LexerState) (k : Nat) : keeps st (_la st k).2 := by
  simp only [_la]
  split
  · exact keeps_rfl st
  · exact _la_fill_keeps _ st

theorem _clear_la_loop_keeps : ∀ (n : Nat) (st : LexerState), keeps st (_clear_la_loop n st) := by
  intro n
  induction n with
  | zero => intro st; exact keeps_rfl st
  | succ m IH =>
    intro st
    simp only [_clear_la_loop]
    split
    · exact keeps_rfl st
    · exact keeps_trans (_next_keeps st) (IH _)

theorem _clear_la_keeps (st : LexerState) : keeps st (_clear_la st) :=
  _clear_la_loop_keeps st.ch_buf.length st

theorem _start_buf_keeps (st : LexerState) (bt : TokenType) (ch : Option Char) :
    keeps st (_start_buf st bt ch) := by
  simp only [_start_buf]
  split
  · exact keeps_rfl st
  · split <;> exact ⟨rfl, rfl⟩

theorem _clear_buf_keeps (st : LexerState) : keeps st (_clear_buf st).2 := ⟨rfl, rfl⟩

theorem match_rest_keeps : ∀ (l : List Char) (st : LexerState) (i : Nat),
    keeps st (match_rest st l i).2 := by
  intro l
  induction l with
  | nil => intro st i; exact keeps_rfl st
  | cons c rest IH =>
    intro st i
    simp only [match_rest]
    split
    · exact keeps_trans (_la_keeps st i) (IH _ _)
    · exact _la_keeps st i

theorem num_radix_keeps (st : LexerState) (ch : Char) : keeps st (num_radix st ch).2 := by
  simp only [num_radix]
  split
  · split
    · exact keeps_trans (_la_keeps st 1) (_next_keeps _)
    · split
      · exact keeps_trans (_la_keeps st 1) (_next_keeps _)
      · split
        · exact keeps_trans (_la_keeps st 1) (_next_keeps _)
        · exact _la_keeps st 1
  · exact keeps_rfl st

theorem try_match_keeps (st : LexerState) (ch : Char) (mto : Option (List Char)) :
    keeps st (try_match st ch mto).2.2 := by
  simp only [try_match]
  split
  · split
    · exact match_rest_keeps _ st _
    · exact keeps_rfl st
  · exact keeps_rfl st

theorem digits_run_keeps : ∀ (fuel : Nat) (st : LexerState) (radix : Nat)
    (u : Unit) (st2 : LexerState),
    digits_run fuel st radix = .ok u st2 → keeps st st2 := by
  intro fuel
  induction fuel with
  | zero => intro st radix u st2 heq; exact Res.noConfusion heq
  | succ f IH =>
    intro st radix u st2 heq
    simp only [digits_run] at heq
    split at heq
    · exact Res.noConfusion heq
    · split at heq
      · exact keeps_trans (keeps_trans (_la_keeps st 1) (_next_keeps _)) (IH _ _ _ _ heq)
      · cases heq; exact _la_keeps st 1

theorem num_frac_keeps (fuel : Nat) (st : LexerState) (b : Bool) (st2 : LexerState)
    (heq : num_frac fuel st = .ok b st2) : keeps st st2 := by
  simp only [num_frac] at heq
  by_cases hdot : (_la st 1).1 = some '.'
  · simp only [hdot, reduceIte] at heq
    cases hd : digits_run fuel (_next (_la st 1).2).2 10 with
    | err e => rw [hd] at heq; exact Res.noConfusion heq
    | fuelOut => rw [hd] at heq; exact Res.noConfusion heq
    | ok u st3 =>
      rw [hd] at heq
      dsimp only at heq
      cases heq
      exact keeps_trans (keeps_trans (_la_keeps st 1) (_next_keeps _))
        (digits_run_keeps fuel _ 10 u _ hd)
  · simp only [hdot, reduceIte] at heq
    cases heq
    exact _la_keeps st 1

theorem num_exp_keeps (fuel : Nat) (st : LexerState) (isF : Bool) (b : Bool)
    (st2 : LexerState) (heq : num_exp fuel st isF = .ok b st2) : keeps st st2 := by
  simp only [num_exp] at heq
  by_cases he : (_la st 1).1 = some 'e' ∨ (_la st 1).1 = some 'E'
  · simp only [he, reduceIte] at heq
    cases hd : digits_run fuel (_next (_la st 1).2).2 10 with
    | err e => rw [hd] at heq; exact Res.noConfusion heq
    | fuelOut => rw [hd] at heq; exact Res.noConfusion heq
    | ok u st3 =>
      rw [hd] at heq
      dsimp only at heq
      cases heq
      exact keeps_trans (keeps_trans (_la_keeps st 1) (_next_keeps _))
        (digits_run_keeps fuel _ 10 u _ hd)
  · simp only [he, reduceIte] at heq
    cases heq
    exact _la_keeps st 1

theorem _do_num_body_keeps (fuel : Nat) (st : LexerState) (p : Nat) (ch : Char)
    (t : Token) (st2 : LexerState)
    (heq : _do_num_body fuel st p ch = .ok t st2) : keeps st st2 := by
  simp only [_do_num_body] at heq
  by_cases h : ch = '.'
  · simp only [h, reduceIte] at heq
    cases hd : digits_run fuel st 10 with
    | err e => rw [hd] at heq; exact Res.noConfusion heq
    | fuelOut => rw [hd] at heq; exact Res.noConfusion heq
    | ok u st3 =>
      rw [hd] at heq
      dsimp only at heq
      cases hp : pyFloat (_clear_buf st3).1 with
      | error e => rw [hp] at heq; exact Res.noConfusion heq
      | ok v =>
        rw [hp] at heq
        dsimp only at heq
        cases heq
        exact keeps_trans (digits_run_keeps fuel st 10 u st3 hd) (_clear_buf_keeps st3)
  · simp only [h, reduceIte] at heq
    cases hd : digits_run fuel (num_radix st ch).2 (num_radix st ch).1 with
    | err e => rw [hd] at heq; exact Res.noConfusion heq
    | fuelOut => rw [hd] at heq; exact Res.noConfusion heq
    | ok u st3 =>
      rw [hd] at heq
      dsimp only at heq
      by_cases h10 : (num_radix st ch).1 ≠ 10
      · simp only [if_pos h10] at heq
        cases hp : pyInt (_clear_buf st3).1 (num_radix st ch).1 with
        | error e => rw [hp] at heq; exact Res.noConfusion heq
        | ok v =>
          rw [hp] at heq
          dsimp only at heq
          cases heq
          exact keeps_trans
            (keeps_trans (num_radix_keeps st ch) (digits_run_keeps fuel _ _ u st3 hd))
            (_clear_buf_keeps st3)
      · simp only [if_neg h10] at heq
        cases hf : num_frac fuel st3 with
        | err e => rw [hf] at heq; exact Res.noConfusion heq
        | fuelOut => rw [hf] at heq; exact Res.noConfusion heq
        | ok isF st4 =>
          rw [hf] at heq
          dsimp only at heq
          cases he : num_exp fuel st4 isF with
          | err e => rw [he] at heq; exact Res.noConfusion heq
          | fuelOut => rw [he] at heq; exact Res.noConfusion heq
          | ok isF2 st5 =>
            rw [he] at heq
            dsimp only at heq
            cases hv : (if isF2 then pyFloat (_clear_buf st5).1
                else pyInt (_clear_buf st5).1 10) with
            | error e => rw [hv] at heq; exact Res.noConfusion heq
            | ok v =>
              rw [hv] at heq
              dsimp only at heq
              cases heq
              exact keeps_trans
                (keeps_trans
                  (keeps_trans
                    (keeps_trans (num_radix_keeps st ch)
                      (digits_run_keeps fuel _ _ u st3 hd))
                    (num_frac_keeps fuel st3 isF st4 hf))
                  (num_exp_keeps fuel st4 isF isF2 st5 he))
                (_clear_buf_keeps st5)

theorem _do_num_keeps (fuel : Nat) (st : LexerState) (p : Nat) (ch : Char)
    (t : Token) (st2 : LexerState)
    (heq : _do_num fuel st p ch = .ok t st2) : keeps st st2 := by
  simp only [_do_num] at heq
  by_cases h : ch = '-' ∨ ch = '+'
  · simp only [h, reduceIte] at heq
    rcases hc : (_next (_start_buf st .NUM_LIT (some ch))).1 with _ | c
    · rw [hc] at heq
      dsimp only at heq
      cases heq
      exact keeps_trans (_start_buf_keeps st _ _) (_next_keeps _)
    · rw [hc] at heq
      dsimp only at heq
      exact keeps_trans (keeps_trans (_start_buf_keeps st _ _) (_next_keeps _))
        (_do_num_body_keeps fuel _ p c t st2 heq)
  · simp only [h, reduceIte] at heq
    exact keeps_trans (_start_buf_keeps st _ _) (_do_num_body_keeps fuel _ p ch t st2 heq)

theorem _do_str_loop_keeps : ∀ (fuel : Nat) (st : LexerState) (p : Nat) (q : Char)
    (vb : List Char) (t : Token) (st2 : LexerState),
    _do_str_loop fuel st p q vb = .ok t st2 → keeps st st2 := by
  intro fuel
  induction fuel with
  | zero => intro st p q vb t st2 heq; exact Res.noConfusion heq
  | succ f IH =>
    intro st p q vb t st2 heq
    simp only [_do_str_loop] at heq
    rcases hc : (_next st).1 with _ | ch
    · rw [hc] at heq
      dsimp only at heq
      cases heq
      exact _next_keeps st
    · rw [hc] at heq
      dsimp only at heq
      by_cases hq : ch = q
      · simp only [hq, reduceIte] at heq
        cases heq
        exact keeps_trans (_next_keeps st) (_clear_buf_keeps _)
      · simp only [hq, reduceIte] at heq
        by_cases hb : ch = '\\'
        · simp only [hb, reduceIte] at heq
          rcases hc2 : (_next (_next st).2).1 with _ | c2
          · rw [hc2] at heq
            dsimp only at heq
            cases heq
            exact keeps_trans (_next_keeps st) (_next_keeps _)
          · rw [hc2] at heq
            dsimp only at heq
            by_cases hn : c2 = 'n'
            · simp only [hn, reduceIte] at heq
              exact keeps_trans (keeps_trans (_next_keeps st) (_next_keeps _))
                (IH _ _ _ _ _ _ heq)
            · simp only [hn, reduceIte] at heq
              by_cases hr : c2 = 'r'
              · simp only [hr, reduceIte] at heq
                exact keeps_trans (keeps_trans (_next_keeps st) (_next_keeps _))
                  (IH _ _ _ _ _ _ heq)
              · simp only [hr, reduceIte] at heq
                exact Res.noConfusion heq
        · simp only [hb, reduceIte] at heq
          exact keeps_trans (_next_keeps st) (IH _ _ _ _ _ _ heq)

theorem _do_str_keeps (fuel : Nat) (st : LexerState) (p : Nat) (ch : Char)
    (t : Token) (st2 : LexerState)
    (heq : _do_str fuel st p ch = .ok t st2) : keeps st st2 :=
  keeps_trans (_start_buf_keeps st .STR_LIT (some ch))
    (_do_str_loop_keeps fuel _ p ch [] t st2 heq)

theorem ws_run_keeps : ∀ (fuel : Nat) (st : LexerState) (p : Nat) (ett : TokenType)
    (sl : Bool) (t : Token) (st2 : LexerState),
    ws_run fuel st p ett sl = .ok t st2 → keeps st st2 := by
  intro fuel
  induction fuel with
  | zero => intro st p ett sl t st2 heq; exact Res.noConfusion heq
  | succ f IH =>
    intro st p ett sl t st2 heq
    simp only [ws_run] at heq
    split at heq
    · exact keeps_trans (keeps_trans (_la_keeps st 1) (_next_keeps _)) (IH _ _ _ _ _ _ heq)
    · split at heq
      · cases heq; exact keeps_trans (_la_keeps st 1) (_clear_buf_keeps _)
      · cases heq; exact keeps_trans (_la_keeps st 1) (_clear_buf_keeps _)

theorem name_run_keeps : ∀ (fuel : Nat) (st : LexerState) (p : Nat)
    (t : Token) (st2 : LexerState),
    name_run fuel st p = .ok t st2 → keeps st st2 := by
  intro fuel
  induction fuel with
  | zero => intro st p t st2 heq; exact Res.noConfusion heq
  | succ f IH =>
    intro st p t st2 heq
    simp only [name_run] at heq
    split at heq
    · exact keeps_trans (keeps_trans (_la_keeps st 1) (_next_keeps _)) (IH _ _ _ _ heq)
    · cases heq; exact keeps_trans (_la_keeps st 1) (_clear_buf_keeps _)

theorem _do_statement_tail_keeps (fuel : Nat) (st : LexerState) (ch : Char) (p : Nat)
    (ett : TokenType) (sl : Bool) (t : Token) (st2 : LexerState)
    (heq : _do_statement_tail fuel st ch p ett sl = .ok t st2) : keeps st st2 := by
  simp only [_do_statement_tail] at heq
  by_cases h1 : ch = '('
  · simp only [h1, reduceIte] at heq; cases heq; exact keeps_rfl st
  simp only [h1, reduceIte] at heq
  by_cases h2 : ch = ')'
  · simp only [h2, reduceIte] at heq; cases heq; exact keeps_rfl st
  simp only [h2, reduceIte] at heq
  by_cases h3 : ch = '['
  · simp only [h3, reduceIte] at heq; cases heq; exact keeps_rfl st
  simp only [h3, reduceIte] at heq
  by_cases h4 : ch = ']'
  · simp only [h4, reduceIte] at heq; cases heq; exact keeps_rfl st
  simp only [h4, reduceIte] at heq
  by_cases h5 : ch = '{'
  · simp only [h5, reduceIte] at heq; cases heq; exact keeps_rfl st
  simp only [h5, reduceIte] at heq
  by_cases h6 : ch = '}'
  · simp only [h6, reduceIte] at heq; cases heq; exact keeps_rfl st
  simp only [h6, reduceIte] at heq
  by_cases h7 : ch = ','
  · simp only [h7, reduceIte] at heq; cases heq; exact keeps_rfl st
  simp only [h7, reduceIte] at heq
  by_cases h8 : ch = '|'
  · simp only [h8, reduceIte] at heq; cases heq; exact keeps_rfl st
  simp only [h8, reduceIte] at heq
  by_cases h9 : ch = ':'
  · simp only [h9, reduceIte] at heq; cases heq; exact keeps_rfl st
  simp only [h9, reduceIte] at heq
  by_cases h10 : ch = '.'
  · simp only [h10, reduceIte] at heq
    cases hd : is_digit (_la st 1).1 10 with
    | error e => rw [hd] at heq; dsimp only at heq; exact Res.noConfusion heq
    | ok b =>
      rw [hd] at heq
      dsimp only at heq
      cases b with
      | false =>
        simp only [Bool.false_eq_true, reduceIte] at heq
        cases heq; exact _la_keeps st 1
      | true =>
        try simp only [reduceIte] at heq
        exact keeps_trans (_la_keeps st 1) (_do_num_keeps fuel _ p _ t st2 heq)
  simp only [h10, reduceIte] at heq
  by_cases h11 : ch = '+' ∨ ch = '-'
  · simp only [h11, reduceIte] at heq
    cases hd : is_digit (_la st 1).1 10 with
    | error e => rw [hd] at heq; dsimp only at heq; exact Res.noConfusion heq
    | ok b =>
      rw [hd] at heq
      dsimp only at heq
      cases b with
      | false =>
        simp only [Bool.false_eq_true, reduceIte] at heq
        cases heq; exact _la_keeps st 1
      | true =>
        try simp only [reduceIte] at heq
        exact Res.noConfusion heq
  simp only [h11, reduceIte] at heq
  by_cases h12 : ch = '*' ∨ ch = '/'
  · simp only [h12, reduceIte] at heq
    split at heq
    · split at heq
      · cases heq; exact keeps_trans (_la_keeps st 1) (_next_keeps _)
      · cases heq; exact keeps_trans (_la_keeps st 1) (_next_keeps _)
    · cases heq; exact _la_keeps st 1
  simp only [h12, reduceIte] at heq
  by_cases h13 : ch = '>' ∨ ch = '<'
  · simp only [h13, reduceIte] at heq
    split at heq
    · split at heq
      · cases heq; exact keeps_trans (_la_keeps st 1) (_next_keeps _)
      · cases heq; exact keeps_trans (_la_keeps st 1) (_next_keeps _)
    · cases heq; exact _la_keeps st 1
  simp only [h13, reduceIte] at heq
  by_cases h14 : ch = '='
  · simp only [h14, reduceIte] at heq
    split at heq
    · cases heq; exact keeps_trans (_la_keeps st 1) (_next_keeps _)
    · cases heq; exact _la_keeps st 1
  simp only [h14, reduceIte] at heq
  by_cases h15 : ch = '"' ∨ ch = '\''
  · simp only [h15, reduceIte] at heq
    exact _do_str_keeps fuel st p ch t st2 heq
  simp only [h15, reduceIte] at heq
  cases hd : is_digit (some ch) 10 with
  | error e => rw [hd] at heq; dsimp only at heq; exact Res.noConfusion heq
  | ok b =>
    rw [hd] at heq
    dsimp only at heq
    cases b with
    | true =>
      try simp only [reduceIte] at heq
      exact _do_num_keeps fuel st p ch t st2 heq
    | false =>
      simp only [Bool.false_eq_true, reduceIte] at heq
      by_cases hw : is_ws (some ch) = true
      · simp only [hw, reduceIte] at heq
        exact keeps_trans (_start_buf_keeps st _ _) (ws_run_keeps fuel _ p ett sl t st2 heq)
      · simp only [hw, Bool.false_eq_true, reduceIte] at heq
        by_cases ha : is_alpha (some ch) = true
        · simp only [ha, reduceIte] at heq
          exact keeps_trans (_start_buf_keeps st _ _) (name_run_keeps fuel _ p t st2 heq)
        · simp only [ha, Bool.false_eq_true, reduceIte] at heq
          exact Res.noConfusion heq

theorem _do_statement_keeps (fuel : Nat) (st : LexerState) (term : Option (List Char))
    (ett : TokenType) (sl : Bool) (t : Token) (st2 : LexerState)
    (heq : _do_statement fuel st term ett sl = .ok t st2) : keeps st st2 := by
  simp only [_do_statement] at heq
  rcases hc : (_next st).1 with _ | ch
  · rw [hc] at heq
    dsimp only at heq
    cases heq
    exact _next_keeps st
  · rw [hc] at heq
    dsimp only at heq
    rcases term with _ | ⟨_ | ⟨t0, trest⟩⟩
    · try dsimp only at heq
      exact keeps_trans (_next_keeps st) (_do_statement_tail_keeps fuel _ ch _ ett sl t st2 heq)
    · try dsimp only at heq
      exact keeps_trans (_next_keeps st) (_do_statement_tail_keeps fuel _ ch _ ett sl t st2 heq)
    · try dsimp only at heq
      by_cases ht : ch = t0
      · simp only [ht, reduceIte] at heq
        split at heq
        · cases heq
          exact keeps_trans
            (keeps_trans (keeps_trans (_next_keeps st) (match_rest_keeps trest _ 1))
              (_clear_la_keeps _))
            (_clear_buf_keeps _)
        · exact keeps_trans (keeps_trans (_next_keeps st) (match_rest_keeps trest _ 1))
            (_do_statement_tail_keeps fuel _ _ _ ett sl t st2 heq)
      · simp only [ht, reduceIte] at heq
        exact keeps_trans (_next_keeps st)
          (_do_statement_tail_keeps fuel _ ch _ ett sl t st2 heq)

theorem _do_comment_emit_keeps (st : LexerState) (p : Nat) (t : Token) (st2 : LexerState)
    (heq : _do_comment_emit st p = .ok t st2) : keeps st st2 := by
  simp only [_do_comment_emit, _clear_buf] at heq
  try dsimp only at heq
  cases heq
  exact ⟨rfl, rfl⟩

theorem _do_comment_loop_keeps : ∀ (fuel : Nat) (st : LexerState) (p : Nat) (sl : Bool)
    (t : Token) (st2 : LexerState),
    _do_comment_loop fuel st p sl = .ok t st2 → keeps st st2 := by
  intro fuel
  induction fuel with
  | zero => intro st p sl t st2 heq; exact Res.noConfusion heq
  | succ f IH =>
    intro st p sl t st2 heq
    simp only [_do_comment_loop] at heq
    rcases hc : (_next st).1 with _ | ch
    · rw [hc] at heq
      dsimp only at heq
      cases heq
      exact _next_keeps st
    · rw [hc] at heq
      dsimp only at heq
      by_cases hsl : sl = true
      · simp only [hsl, reduceIte] at heq
        by_cases hr : ch = '\r'
        · simp only [hr, reduceIte] at heq
          by_cases hn : (_la (_next st).2 1).1 = some '\n'
          · simp only [hn, reduceIte] at heq
            exact keeps_trans
              (keeps_trans (keeps_trans (_next_keeps st) (_la_keeps _ 1)) (_next_keeps _))
              (_do_comment_emit_keeps _ p t st2 heq)
          · simp only [hn, reduceIte] at heq
            exact keeps_trans (keeps_trans (_next_keeps st) (_la_keeps _ 1))
              (_do_comment_emit_keeps _ p t st2 heq)
        · simp only [hr, reduceIte] at heq
          by_cases hn2 : ch = '\n'
          · simp only [hn2, reduceIte] at heq
            exact keeps_trans (_next_keeps st) (_do_comment_emit_keeps _ p t st2 heq)
          · simp only [hn2, reduceIte] at heq
            exact keeps_trans (_next_keeps st) (IH _ _ _ _ _ heq)
      · simp only [hsl, Bool.false_eq_true, reduceIte] at heq
        rcases hce : (_next st).2.comment_end with _ | ⟨_ | ⟨c0, crest⟩⟩
        · rw [hce] at heq; dsimp only at heq; exact Res.noConfusion heq
        · rw [hce] at heq; dsimp only at heq; exact Res.noConfusion heq
        · rw [hce] at heq
          dsimp only at heq
          by_cases h0 : ch = c0
          · simp only [h0, reduceIte] at heq
            split at heq
            · exact keeps_trans
                (keeps_trans (keeps_trans (_next_keeps st) (match_rest_keeps crest _ 1))
                  (_clear_la_keeps _))
                (_do_comment_emit_keeps _ p t st2 heq)
            · exact keeps_trans (keeps_trans (_next_keeps st) (match_rest_keeps crest _ 1))
                (IH _ _ _ _ _ heq)
          · simp only [h0, reduceIte] at heq
            exact keeps_trans (_next_keeps st) (IH _ _ _ _ _ heq)

theorem _do_comment_keeps (fuel : Nat) (st : LexerState) (sl : Bool)
    (t : Token) (st2 : LexerState)
    (heq : _do_comment fuel st sl = .ok t st2) : keeps st st2 :=
  keeps_trans (_start_buf_keeps st .COMMENT_DATA none)
    (_do_comment_loop_keeps fuel _ st.template_pos sl t st2 heq)

theorem s0_emit_keeps (st : LexerState) (tt : TokenType) (mt : List Char)
    (mp sp : Nat) (buf : List Char) (t : Token) (st2 : LexerState)
    (heq : s0_emit st tt mt mp sp buf = .ok t st2) : keeps st st2 := by
  simp only [s0_emit] at heq
  rcases buf with _ | ⟨b, bs⟩
  · dsimp only at heq
    cases heq
    exact _clear_la_keeps st
  · dsimp only at heq
    cases heq
    exact _clear_la_keeps st

theorem s0_loop_keeps : ∀ (fuel : Nat) (st : LexerState) (sp : Nat) (buf : List Char)
    (t : Token) (st2 : LexerState),
    s0_loop fuel st sp buf = .ok t st2 → keeps st st2 := by
  intro fuel
  induction fuel with
  | zero => intro st sp buf t st2 heq; exact Res.noConfusion heq
  | succ f IH =>
    intro st sp buf t st2 heq
    simp only [s0_loop] at heq
    rcases hc : (_next st).1 with _ | ch
    · rw [hc] at heq
      dsimp only at heq
      rcases buf with _ | ⟨b, bs⟩
      · dsimp only at heq; cases heq; exact _next_keeps st
      · dsimp only at heq; cases heq; exact _next_keeps st
    · rw [hc] at heq
      dsimp only at heq
      split at heq
      · exact keeps_trans (keeps_trans (_next_keeps st) (try_match_keeps _ ch _))
          (s0_emit_keeps _ _ _ _ _ _ t st2 heq)
      · split at heq
        · exact keeps_trans
            (keeps_trans (keeps_trans (_next_keeps st) (try_match_keeps _ ch _))
              (try_match_keeps _ ch _))
            (s0_emit_keeps _ _ _ _ _ _ t st2 heq)
        · split at heq
          · exact keeps_trans
              (keeps_trans
                (keeps_trans (keeps_trans (_next_keeps st) (try_match_keeps _ ch _))
                  (try_match_keeps _ ch _))
                (try_match_keeps _ ch _))
              (s0_emit_keeps _ _ _ _ _ _ t st2 heq)
          · split at heq
            · exact keeps_trans
                (keeps_trans
                  (keeps_trans
                    (keeps_trans (keeps_trans (_next_keeps st) (try_match_keeps _ ch _))
                      (try_match_keeps _ ch _))
                    (try_match_keeps _ ch _))
                  (try_match_keeps _ ch _))
                (s0_emit_keeps _ _ _ _ _ _ t st2 heq)
            · split at heq
              · exact keeps_trans
                  (keeps_trans
                    (keeps_trans
                      (keeps_trans
                        (keeps_trans (keeps_trans (_next_keeps st) (try_match_keeps _ ch _))
                          (try_match_keeps _ ch _))
                        (try_match_keeps _ ch _))
                      (try_match_keeps _ ch _))
                    (try_match_keeps _ ch _))
                  (s0_emit_keeps _ _ _ _ _ _ t st2 heq)
              · exact keeps_trans
                  (keeps_trans
                    (keeps_trans
                      (keeps_trans
                        (keeps_trans (keeps_trans (_next_keeps st) (try_match_keeps _ ch _))
                          (try_match_keeps _ ch _))
                        (try_match_keeps _ ch _))
                      (try_match_keeps _ ch _))
                    (try_match_keeps _ ch _))
                  (IH _ _ _ _ _ heq)

theorem keeps_of_tok_ite {c : Prop} [Decidable c] {rv t : Token} {st3 st2 : LexerState}
    (heq : (if c then Res.ok rv { st3 with state := 0 } else Res.ok rv st3) = Res.ok t st2) :
    keeps st3 st2 := by
  split at heq <;> cases heq <;> exact ⟨rfl, rfl⟩

theorem _next_token_keeps : ∀ (fuel : Nat) (st : LexerState) (t : Token) (st2 : LexerState),
    _next_token fuel st = .ok t st2 → keeps st st2 := by
  intro fuel
  induction fuel with
  | zero => intro st t st2 heq; exact Res.noConfusion heq
  | succ f IH =>
    intro st t st2 heq
    simp only [_next_token] at heq
    by_cases h0 : st.state = 0
    · simp only [h0, reduceIte] at heq
      exact s0_loop_keeps f st _ [] t st2 heq
    · simp only [h0, reduceIte] at heq
      by_cases h135 : st.state = 1 ∨ st.state = 3 ∨ st.state = 5
      · simp only [h135, reduceIte] at heq
        rcases h135 with h1 | h3 | h5
        · simp only [h1, reduceIte] at heq
          split at heq
          · rename_i rv st3 hd
            exact keeps_trans (_do_statement_keeps f st _ _ _ rv st3 hd)
              (keeps_of_tok_ite heq)
          · exact Res.noConfusion heq
          · exact Res.noConfusion heq
        · simp only [h3, reduceIte] at heq
          split at heq
          · rename_i rv st3 hd
            exact keeps_trans (_do_statement_keeps f st _ _ _ rv st3 hd)
              (keeps_of_tok_ite heq)
          · exact Res.noConfusion heq
          · exact Res.noConfusion heq
        · simp only [h5, reduceIte] at heq
          split at heq
          · rename_i rv st3 hd
            exact keeps_trans (_do_statement_keeps f st _ _ _ rv st3 hd)
              (keeps_of_tok_ite heq)
          · exact Res.noConfusion heq
          · exact Res.noConfusion heq
      · simp only [h135, reduceIte] at heq
        by_cases h24 : st.state = 2 ∨ st.state = 4
        · simp only [h24, reduceIte] at heq
          split at heq
          · rename_i rv st3 hd
            exact keeps_trans (_do_comment_keeps f st _ rv st3 hd)
              (keeps_of_tok_ite heq)
          · exact Res.noConfusion heq
          · exact Res.noConfusion heq
        · simp only [h24, reduceIte] at heq
          by_cases h6 : st.state = 6
          · simp only [h6, reduceIte] at heq
            rcases hbt : st.buf_tok with _ | tok
            · rw [hbt] at heq; dsimp only at heq; exact Res.noConfusion heq
            · rw [hbt] at heq
              dsimp only at heq
              cases heq
              exact ⟨rfl, rfl⟩
          · simp only [h6, reduceIte] at heq
            exact IH st t st2 heq

/-- The token lookahead buffer holds no ignored token (true initially, and
preserved by the lexer since `la_fill` filters before appending). -/
def la_buf_ok (st : LexerState) : Prop :=
  ∀ t ∈ st.la_buf, t.tok_type ∉ st.ignore_tokens

instance (st : LexerState) : Decidable (la_buf_ok st) :=
  inferInstanceAs (Decidable (∀ t ∈ st.la_buf, t.tok_type ∉ st.ignore_tokens))

/-- `la_fill(n)` appends exactly `n` fresh non-ignored tokens to the token
lookahead buffer and returns the last one. -/
theorem la_fill_spec : ∀ (fuel : Nat) (st : LexerState) (n : Nat) (t : Token)
    (st2 : LexerState), 1 ≤ n → la_fill fuel st n = .ok t st2 →
    st2.ignore_tokens = st.ignore_tokens ∧
    ∃ new : List Token, st2.la_buf = st.la_buf ++ new ∧ new.length = n ∧
      new.getLast? = some t ∧ ∀ u ∈ new, u.tok_type ∉ st.ignore_tokens := by
  intro fuel
  induction fuel with
  | zero => intro st n t st2 hn heq; exact Res.noConfusion heq
  | succ f IH =>
    intro st n t st2 hn heq
    simp only [la_fill] at heq
    split at heq
    · rename_i t1 st1 hd
      have hk := _next_token_keeps f st t1 st1 hd
      by_cases hig : t1.tok_type ∈ st1.ignore_tokens
      · simp only [hig, reduceIte] at heq
        obtain ⟨hig2, new, hbuf, hlen, hlast, hall⟩ := IH st1 n t st2 hn heq
        refine ⟨hig2.trans hk.2, new, ?_, hlen, hlast, ?_⟩
        · rw [hbuf, hk.1]
        · intro u hu
          rw [← hk.2]
          exact hall u hu
      · simp only [hig, reduceIte] at heq
        by_cases h1 : n ≤ 1
        · simp only [if_pos h1] at heq
          cases heq
          refine ⟨hk.2, [t], ?_, ?_, rfl, ?_⟩
          · exact congrArg (fun l => l ++ [t]) hk.1
          · simp only [List.length_cons, List.length_nil]
            omega
          · intro u hu
            have hu1 := List.mem_singleton.mp hu
            subst hu1
            rw [← hk.2]
            exact hig
        · simp only [if_neg h1] at heq
          obtain ⟨hig2, new, hbuf, hlen, hlast, hall⟩ := IH _ (n - 1) t st2 (by omega) heq
          refine ⟨hig2.trans hk.2, t1 :: new, ?_, ?_, ?_, ?_⟩
          · rw [hbuf]
            simp [hk.1, List.append_assoc]
          · simp only [List.length_cons, hlen]
            omega
          · rcases new with _ | ⟨b, l⟩
            · exfalso
              simp only [List.length_nil] at hlen
              omega
            · rw [List.getLast?_cons_cons]
              exact hlast
          · intro u hu
            rcases List.mem_cons.mp hu with hu1 | hu2
            · subst hu1
              rw [← hk.2]
              exact hig
            · have h3 := hall u hu2
              rw [← hk.2]
              exact h3
    · exact Res.noConfusion heq
    · exact Res.noConfusion heq

/-- `la(k)` (fresh part): success extends the buffer to at least `k` tokens,
the k-th of which is the reported one; nothing ignored is reported or
buffered. -/
theorem la_spec (fuel k : Nat) (st : LexerState) (t : Token) (st2 : LexerState)
    (hk1 : 1 ≤ k) (hok : la_buf_ok st) (heq : la fuel st k = .ok t st2) :
    st2.ignore_tokens = st.ignore_tokens ∧
    (∃ new : List Token, st2.la_buf = st.la_buf ++ new) ∧
    k ≤ st2.la_buf.length ∧
    st2.la_buf[k - 1]? = some t ∧
    t.tok_type ∉ st.ignore_tokens ∧
    la_buf_ok st2 := by
  simp only [la] at heq
  cases hg : st.la_buf.get? (k - 1) with
  | some tok =>
    rw [hg] at heq
    dsimp only at heq
    cases heq
    have hg2 : st.la_buf[k - 1]? = some t :=
      (List.get?_eq_getElem? st.la_buf (k - 1)).symm.trans hg
    have hmem : t ∈ st.la_buf := List.getElem?_mem hg2
    have hlt : k - 1 < st.la_buf.length := (List.get?_eq_some.mp hg).1
    refine ⟨rfl, ⟨[], by simp⟩, by omega, hg2, hok t hmem, hok⟩
  | none =>
    rw [hg] at heq
    dsimp only at heq
    have hmiss : st.la_buf.length ≤ k - 1 := List.get?_eq_none.mp hg
    obtain ⟨hig, new, hbuf, hlen, hlast, hall⟩ :=
      la_fill_spec fuel st (k - st.la_buf.length) t st2 (by omega) heq
    have htmem : t ∈ new := by
      rw [List.getLast?_eq_getElem?] at hlast
      exact List.getElem?_mem hlast
    refine ⟨hig, ⟨new, hbuf⟩, ?_, ?_, hall t htmem, ?_⟩
    · rw [hbuf]
      simp only [List.length_append, hlen]
      omega
    · rw [hbuf, List.getElem?_append_right (by omega)]
      rw [List.getLast?_eq_getElem?] at hlast
      rw [show k - 1 - st.la_buf.length = new.length - 1 from by omega]
      exact hlast
    · intro u hu
      rw [hbuf] at hu
      rw [hig]
      rcases List.mem_append.mp hu with h | h
      · exact hok u h
      · exact hall u h

/-- `la(j)` on an index already buffered is pure: it reports the j-th
buffered token and leaves the state untouched. -/
theorem la_buffered_pure (fuel j : Nat) (st : LexerState) (t : Token)
    (h : st.la_buf[j - 1]? = some t) : la fuel st j = .ok t st := by
  simp only [la]
  rw [show st.la_buf.get? (j - 1) = some t from
    (List.get?_eq_getElem? st.la_buf (j - 1)).trans h]

/-- `next_token` iterated `k` times drains the first `k` buffered tokens in
FIFO order before producing anything new. -/
theorem next_n_drains (fuel : Nat) : ∀ (k : Nat) (st : LexerState), 1 ≤ fuel →
    k ≤ st.la_buf.length →
    next_n fuel k st = .ok (st.la_buf.take k) { st with la_buf := st.la_buf.drop k } := by
  intro k
  induction k with
  | zero =>
    intro st hf hk
    simp only [next_n, List.take_zero, List.drop_zero]
  | succ m IH =>
    intro st hf hk
    obtain ⟨f, rfl⟩ : ∃ f, fuel = f + 1 := ⟨fuel - 1, by omega⟩
    cases hb : st.la_buf with
    | nil =>
      rw [hb] at hk
      simp at hk
    | cons tok rest =>
      have hpop : next_token (f + 1) st = .ok tok { st with la_buf := rest } := by
        simp only [next_token, hb]
      simp only [next_n]
      rw [hpop]
      dsimp only
      have hrest : m ≤ rest.length := by
        rw [hb] at hk
        simp only [List.length_cons] at hk
        omega
      rw [IH { st with la_buf := rest } (by omega) (by simpa using hrest)]
      dsimp only
      simp [List.take_succ_cons, List.drop_succ_cons]

/-- `next_token` never returns a token of an ignored kind (provided the
lookahead buffer holds none, which the lexer maintains). -/
theorem next_token_no_ignore : ∀ (fuel : Nat) (st : LexerState) (t : Token)
    (st2 : LexerState), la_buf_ok st → next_token fuel st = .ok t st2 →
    t.tok_type ∉ st.ignore_tokens ∧ st2.ignore_tokens = st.ignore_tokens ∧
      la_buf_ok st2 := by
  intro fuel
  induction fuel with
  | zero => intro st t st2 hok heq; exact Res.noConfusion heq
  | succ f IH =>
    intro st t st2 hok heq
    simp only [next_token] at heq
    cases hb : st.la_buf with
    | cons tok rest =>
      rw [hb] at heq
      dsimp only at heq
      cases heq
      refine ⟨hok t (by rw [hb]; exact List.mem_cons_self t rest), rfl, ?_⟩
      intro u hu
      exact hok u (by rw [hb]; exact List.mem_cons_of_mem t hu)
    | nil =>
      rw [hb] at heq
      dsimp only at heq
      split at heq
      · rename_i t1 st1 hd
        have hk := _next_token_keeps f st t1 st1 hd
        by_cases hig : t1.tok_type ∈ st1.ignore_tokens
        · simp only [hig, reduceIte] at heq
          have hok1 : la_buf_ok st1 := by
            intro u hu
            rw [hk.1, hb] at hu
            simp at hu
          obtain ⟨i1, i2, i3⟩ := IH st1 t st2 hok1 heq
          refine ⟨?_, i2.trans hk.2, i3⟩
          rw [← hk.2]
          exact i1
        · simp only [hig, reduceIte] at heq
          cases heq
          refine ⟨?_, hk.2, ?_⟩
          · rw [← hk.2]
            exact hig
          · intro u hu
            rw [hk.1, hb] at hu
            simp at hu
      · exact Res.noConfusion heq
      · exact Res.noConfusion heq

end JinjaStatementLexer

/-- Claim C9: after `la(k)` succeeds the lookahead buffer holds at least `k`
non-ignored tokens whose k-th entry is the reported token (and `la(j)` for a
buffered index `j` purely re-reports the j-th entry, so `la(1)` … `la(k)`
report the first `k` entries); the following `k` calls to `next_token` drain
exactly those first `k` buffered tokens in FIFO order; and neither `la` nor
`next_token` ever returns a token whose kind is in the ignore set (given the
buffer invariant `la_buf_ok`, which holds initially and is preserved by
both). -/
theorem lookahead_fifo_and_ignore :
    (∀ (fuel k : Nat) (st : LexerState) (t : Token) (st2 : LexerState),
       1 ≤ k → JinjaStatementLexer.la_buf_ok st →
       JinjaStatementLexer.la fuel st k = .ok t st2 →
       st2.ignore_tokens = st.ignore_tokens ∧
       (∃ new : List Token, st2.la_buf = st.la_buf ++ new) ∧
       k ≤ st2.la_buf.length ∧
       st2.la_buf[k - 1]? = some t ∧
       t.tok_type ∉ st.ignore_tokens ∧
       JinjaStatementLexer.la_buf_ok st2) ∧
    (∀ (fuel j : Nat) (st : LexerState) (t : Token),
       st.la_buf[j - 1]? = some t →
       JinjaStatementLexer.la fuel st j = .ok t st) ∧
    (∀ (fuel k : Nat) (st : LexerState), 1 ≤ fuel → k ≤ st.la_buf.length →
       next_n fuel k st =
         .ok (st.la_buf.take k) { st with la_buf := st.la_buf.drop k }) ∧
    (∀ (fuel : Nat) (st : LexerState) (t : Token) (st2 : LexerState),
       JinjaStatementLexer.la_buf_ok st →
       JinjaStatementLexer.next_token fuel st = .ok t st2 →
       t.tok_type ∉ st.ignore_tokens ∧ st2.ignore_tokens = st.ignore_tokens ∧
         JinjaStatementLexer.la_buf_ok st2) :=
  ⟨JinjaStatementLexer.la_spec, JinjaStatementLexer.la_buffered_pure,
   JinjaStatementLexer.next_n_drains, JinjaStatementLexer.next_token_no_ignore⟩

/-- Witness for `lookahead_fifo_and_ignore`: the four parts applied to the
default lexer over "ab", whose first lookahead buffers one TEMPLATE_DATA
token. -/
theorem lookahead_fifo_and_ignore_witness :
    (({ mkLexer ['a', 'b'] with template_pos := 2, la_buf := [mkTok .TEMPLATE_DATA "ab" 0] }.ignore_tokens = (mkLexer ['a', 'b']).ignore_tokens ∧
      (∃ new : List Token, { mkLexer ['a', 'b'] with template_pos := 2, la_buf := [mkTok .TEMPLATE_DATA "ab" 0] }.la_buf = (mkLexer ['a', 'b']).la_buf ++ new) ∧
      1 ≤ { mkLexer ['a', 'b'] with template_pos := 2, la_buf := [mkTok .TEMPLATE_DATA "ab" 0] }.la_buf.length ∧
      { mkLexer ['a', 'b'] with template_pos := 2, la_buf := [mkTok .TEMPLATE_DATA "ab" 0] }.la_buf[1 - 1]? = some (mkTok .TEMPLATE_DATA "ab" 0) ∧
      (mkTok .TEMPLATE_DATA "ab" 0).tok_type ∉ (mkLexer ['a', 'b']).ignore_tokens ∧
      JinjaStatementLexer.la_buf_ok { mkLexer ['a', 'b'] with template_pos := 2, la_buf := [mkTok .TEMPLATE_DATA "ab" 0] }) ∧
    JinjaStatementLexer.la 5 { mkLexer ['a', 'b'] with template_pos := 2, la_buf := [mkTok .TEMPLATE_DATA "ab" 0] } 1 =
      .ok (mkTok .TEMPLATE_DATA "ab" 0) { mkLexer ['a', 'b'] with template_pos := 2, la_buf := [mkTok .TEMPLATE_DATA "ab" 0] }) ∧
    (next_n 5 1 { mkLexer ['a', 'b'] with template_pos := 2, la_buf := [mkTok .TEMPLATE_DATA "ab" 0] } =
      .ok ({ mkLexer ['a', 'b'] with template_pos := 2, la_buf := [mkTok .TEMPLATE_DATA "ab" 0] }.la_buf.take 1)
        { { mkLexer ['a', 'b'] with template_pos := 2, la_buf := [mkTok .TEMPLATE_DATA "ab" 0] } with
          la_buf := { mkLexer ['a', 'b'] with template_pos := 2, la_buf := [mkTok .TEMPLATE_DATA "ab" 0] }.la_buf.drop 1 }) ∧
    ((mkTok .TEMPLATE_DATA "ab" 0).tok_type ∉ { mkLexer ['a', 'b'] with template_pos := 2, la_buf := [mkTok .TEMPLATE_DATA "ab" 0] }.ignore_tokens ∧
      { { mkLexer ['a', 'b'] with template_pos := 2, la_buf := [mkTok .TEMPLATE_DATA "ab" 0] } with la_buf := ([] : List Token) }.ignore_tokens =
        { mkLexer ['a', 'b'] with template_pos := 2, la_buf := [mkTok .TEMPLATE_DATA "ab" 0] }.ignore_tokens ∧
      JinjaStatementLexer.la_buf_ok { { mkLexer ['a', 'b'] with template_pos := 2, la_buf := [mkTok .TEMPLATE_DATA "ab" 0] } with la_buf := ([] : List Token) }) :=
  ⟨⟨lookahead_fifo_and_ignore.1 20 1 (mkLexer ['a', 'b']) (mkTok .TEMPLATE_DATA "ab" 0)
      { mkLexer ['a', 'b'] with template_pos := 2, la_buf := [mkTok .TEMPLATE_DATA "ab" 0] }
      (by decide) (by decide) (by decide),
    lookahead_fifo_and_ignore.2.1 5 1
      { mkLexer ['a', 'b'] with template_pos := 2, la_buf := [mkTok .TEMPLATE_DATA "ab" 0] }
      (mkTok .TEMPLATE_DATA "ab" 0) (by decide)⟩,
   lookahead_fifo_and_ignore.2.2.1 5 1
      { mkLexer ['a', 'b'] with template_pos := 2, la_buf := [mkTok .TEMPLATE_DATA "ab" 0] }
      (by decide) (by decide),
   lookahead_fifo_and_ignore.2.2.2 5
      { mkLexer ['a', 'b'] with template_pos := 2, la_buf := [mkTok .TEMPLATE_DATA "ab" 0] }
      (mkTok .TEMPLATE_DATA "ab" 0)
      { { mkLexer ['a', 'b'] with template_pos := 2, la_buf := [mkTok .TEMPLATE_DATA "ab" 0] } with la_buf := ([] : List Token) }
      (by decide) (by decide)⟩

